import Mathlib

/-!
Verification development for the TanStack AI streaming chat library.

This file shallowly embeds the stream-normalization adapters
(`src/packages/ai-openai/src/openai-adapter.ts` and the Gemini text adapter),
the SSE response bridge (`src/packages/ai/src/stream-to-response.ts` and the
PHP Slim server), and the tool-calling demo loop, and proves or refutes the
specified properties about them.

JavaScript machine details are modelled explicitly:
* `Date.now()` values are threaded as explicit clock parameters
  (`timestamp` for the value sampled when a stream starts, a per-vendor-chunk
  `now` for values sampled while that chunk is processed);
* JavaScript truthiness tests on optional strings are `truthyStr`;
* `JSON.parse` / `JSON.stringify` are the executable `parseJson` /
  `stringifyJson` below over a concrete `Json` value type;
* a vendor call that can throw is an `Except` value: `.error e` when the
  underlying SDK call throws `e`, `.ok (chunks, merr)` when it delivers
  `chunks` and then either finishes (`merr = none`) or throws mid-iteration
  (`merr = some e`).
-/

namespace TanstackAI

/-- A JavaScript exception observed by a `catch` block: whether it is an
`Error` instance, its `message` property (empty string models both a missing
and an empty message where only truthiness matters; `isError` distinguishes
`instanceof Error`), and its optional `code` property. -/
structure JsError where
  isError : Bool
  message : String
  code : Option String
deriving DecidableEq, Repr

/-- JavaScript truthiness for an optional string: `undefined` and `""` are
falsy, every other string is truthy. Returns the string when truthy. -/
def truthyStr : Option String → Option String
  | none => none
  | some s => if s = "" then none else some s

/-- A JSON value (the result of `JSON.parse`, or a value built by the code).
Numbers are modelled as integers: every numeric literal the adapters
manipulate in the argument-merging paths is integral. -/
inductive Json where
  | null : Json
  | bool : Bool → Json
  | num : Int → Json
  | str : String → Json
  | arr : List Json → Json
  | obj : List (String × Json) → Json

/-- JavaScript truthiness of a JSON value (`null`, `false`, `0` and `""` are
falsy; every object and array, including `{}` and `[]`, is truthy). -/
def jsTruthy : Json → Bool
  | .null => false
  | .bool b => b
  | .num n => n ≠ 0
  | .str s => s ≠ ""
  | .arr _ => true
  | .obj _ => true

/-- The character `{` (kept as a definition so the parser can compare
against it). -/
def lbrace : Char := Char.ofNat 123

/-- The character `}`. -/
def rbrace : Char := Char.ofNat 125

/-- Fuel-based driver for `natDigits` (structural recursion, so the kernel
can evaluate it; the fuel in `natDigits` is always sufficient). -/
def natDigitsAux : Nat → Nat → List Char
  | 0, _ => []
  | fuel + 1, n =>
      if n < 10 then [Nat.digitChar n]
      else natDigitsAux fuel (n / 10) ++ [Nat.digitChar (n % 10)]

/-- Decimal digit characters, used for JavaScript number-to-string
conversion (template literals and `JSON.stringify`). -/
def natDigits (n : Nat) : List Char := natDigitsAux (n + 1) n

theorem natDigitsAux_fuel : ∀ (n f1 f2 : Nat), n < f1 → n < f2 →
    natDigitsAux f1 n = natDigitsAux f2 n := by
  intro n
  induction n using Nat.strong_induction_on with
  | _ n ih =>
      intro f1 f2 h1 h2
      cases f1 with
      | zero => omega
      | succ f1 =>
          cases f2 with
          | zero => omega
          | succ f2 =>
              by_cases h : n < 10
              · simp [natDigitsAux, h]
              · have hd : n / 10 < n := Nat.div_lt_self (by omega) (by omega)
                simp only [natDigitsAux, if_neg h]
                rw [ih (n / 10) hd f1 f2 (by omega) (by omega)]

theorem natDigits_lt (n : Nat) (h : n < 10) : natDigits n = [Nat.digitChar n] := by
  simp [natDigits, natDigitsAux, h]

theorem natDigits_ge (n : Nat) (h : ¬ n < 10) :
    natDigits n = natDigits (n / 10) ++ [Nat.digitChar (n % 10)] := by
  have hd : n / 10 < n := Nat.div_lt_self (by omega) (by omega)
  show natDigitsAux (n + 1) n = _
  simp only [natDigitsAux, if_neg h]
  rw [natDigitsAux_fuel (n / 10) n (n / 10 + 1) (by omega) (by omega)]
  rfl

/-- JavaScript decimal rendering of a natural number. -/
def natStr (n : Nat) : String := ⟨natDigits n⟩

/-- JavaScript decimal rendering of an integer. -/
def intStr (n : Int) : String :=
  if n < 0 then "-" ++ natStr n.natAbs else natStr n.natAbs

/-- The `JSON.stringify` escape of one string character: the short escapes
for quote, backslash and common control characters, `\u00XX` for the other
control characters, and the character itself otherwise. -/
def escapeChar (c : Char) : String :=
  if c = '"' then "\\\""
  else if c = '\\' then "\\\\"
  else if c = '\n' then "\\n"
  else if c = '\t' then "\\t"
  else if c = '\r' then "\\r"
  else if c = Char.ofNat 8 then "\\b"
  else if c = Char.ofNat 12 then "\\f"
  else if c.toNat < 32 then
    "\\u00" ++ ⟨[Nat.digitChar (c.toNat / 16), Nat.digitChar (c.toNat % 16)]⟩
  else String.singleton c

/-- `JSON.stringify` rendering of a string literal, quotes included. -/
def quoteJson (s : String) : String :=
  "\"" ++ (s.data.map escapeChar).foldl (· ++ ·) "" ++ "\""

mutual

/-- `JSON.stringify` (no indentation), as the adapters call it. -/
def stringifyJson : Json → String
  | .null => "null"
  | .bool b => if b then "true" else "false"
  | .num n => intStr n
  | .str s => quoteJson s
  | .arr xs => "[" ++ stringifyElems xs ++ "]"
  | .obj kvs => String.singleton lbrace ++ stringifyMembers kvs ++ String.singleton rbrace

/-- Comma-separated rendering of array elements. -/
def stringifyElems : List Json → String
  | [] => ""
  | [x] => stringifyJson x
  | x :: y :: rest => stringifyJson x ++ "," ++ stringifyElems (y :: rest)

/-- Comma-separated rendering of object members, in stored order. -/
def stringifyMembers : List (String × Json) → String
  | [] => ""
  | [(k, v)] => quoteJson k ++ ":" ++ stringifyJson v
  | (k, v) :: m :: rest =>
      quoteJson k ++ ":" ++ stringifyJson v ++ "," ++ stringifyMembers (m :: rest)

end

/-- Whitespace accepted between JSON tokens. -/
def isWsChar (c : Char) : Bool := c = ' ' || c = '\n' || c = '\t' || c = '\r'

/-- ASCII decimal digit test. -/
def isDigitChar (c : Char) : Bool := 48 ≤ c.toNat && c.toNat ≤ 57

/-- Skip leading whitespace. -/
def skipWs (cs : List Char) : List Char := cs.dropWhile isWsChar

/-- Split a leading run of digits from the rest of the input. -/
def takeDigits : List Char → List Char × List Char
  | [] => ([], [])
  | c :: cs =>
      if isDigitChar c then
        let (ds, r) := takeDigits cs
        (c :: ds, r)
      else ([], c :: cs)

/-- Numeric value of a digit run. -/
def digitsVal (ds : List Char) : Nat :=
  ds.foldl (fun a c => a * 10 + (c.toNat - 48)) 0

/-- Value of a hexadecimal digit, if any. -/
def hexVal (c : Char) : Option Nat :=
  if 48 ≤ c.toNat ∧ c.toNat ≤ 57 then some (c.toNat - 48)
  else if 97 ≤ c.toNat ∧ c.toNat ≤ 102 then some (c.toNat - 87)
  else if 65 ≤ c.toNat ∧ c.toNat ≤ 70 then some (c.toNat - 55)
  else none

/-- JavaScript property assignment on an object's member list: an existing
key keeps its position and receives the new value, a new key is appended.
This is both how `JSON.parse` resolves duplicate keys and how a JS `Map.set`
and the object spread `{ ...a, ...b }` build their entries. -/
def setKey {α β : Type} [DecidableEq α] : List (α × β) → α → β → List (α × β)
  | [], k, v => [(k, v)]
  | (k', v') :: rest, k, v =>
      if k' = k then (k', v) :: rest else (k', v') :: setKey rest k v

/-- First-match lookup in a member list (JS property access; keys are unique
in lists built by `setKey`, so first match is the match). -/
def lookupKey {α β : Type} [DecidableEq α] (k : α) : List (α × β) → Option β
  | [] => none
  | (k', v) :: rest => if k' = k then some v else lookupKey k rest

/-- The body of a JSON string literal, after its opening quote: collects
characters (processing escapes) until the closing quote. -/
def parseStringBody (acc : List Char) : List Char → Option (String × List Char)
  | [] => none
  | c :: rest =>
      if c = '"' then some (⟨acc.reverse⟩, rest)
      else if c = '\\' then
        match rest with
        | [] => none
        | e :: rest2 =>
            if e = '"' then parseStringBody ('"' :: acc) rest2
            else if e = '\\' then parseStringBody ('\\' :: acc) rest2
            else if e = '/' then parseStringBody ('/' :: acc) rest2
            else if e = 'n' then parseStringBody ('\n' :: acc) rest2
            else if e = 't' then parseStringBody ('\t' :: acc) rest2
            else if e = 'r' then parseStringBody ('\r' :: acc) rest2
            else if e = 'b' then parseStringBody (Char.ofNat 8 :: acc) rest2
            else if e = 'f' then parseStringBody (Char.ofNat 12 :: acc) rest2
            else if e = 'u' then
              match rest2 with
              | h1 :: h2 :: h3 :: h4 :: rest3 =>
                  match hexVal h1, hexVal h2, hexVal h3, hexVal h4 with
                  | some a, some b, some c', some d =>
                      parseStringBody
                        (Char.ofNat (((a * 16 + b) * 16 + c') * 16 + d) :: acc) rest3
                  | _, _, _, _ => none
              | _ => none
            else none
      else parseStringBody (c :: acc) rest

mutual

/-- Recursive-descent `JSON.parse`, on fuel (structural totality; the fuel
chosen in `parseJson` is ample for any input the code meets). Returns the
parsed value and the unconsumed input. -/
def parseVal : Nat → List Char → Option (Json × List Char)
  | 0, _ => none
  | fuel + 1, cs =>
      match skipWs cs with
      | [] => none
      | c :: rest =>
          if c = 'n' then
            match rest with
            | 'u' :: 'l' :: 'l' :: r => some (.null, r)
            | _ => none
          else if c = 't' then
            match rest with
            | 'r' :: 'u' :: 'e' :: r => some (.bool true, r)
            | _ => none
          else if c = 'f' then
            match rest with
            | 'a' :: 'l' :: 's' :: 'e' :: r => some (.bool false, r)
            | _ => none
          else if c = '"' then
            match parseStringBody [] rest with
            | some (s, r) => some (.str s, r)
            | none => none
          else if c = lbrace then parseObjBody fuel (skipWs rest)
          else if c = '[' then parseArrBody fuel (skipWs rest)
          else if c = '-' then
            match takeDigits rest with
            | ([], _) => none
            | (ds, r) => some (.num (-(digitsVal ds : Int)), r)
          else if isDigitChar c then
            match takeDigits (c :: rest) with
            | (ds, r) => some (.num (digitsVal ds : Int), r)
          else none

/-- Object body right after `{` (whitespace already skipped): either the
empty object or a first member. -/
def parseObjBody : Nat → List Char → Option (Json × List Char)
  | 0, _ => none
  | fuel + 1, cs =>
      match cs with
      | [] => none
      | c :: rest =>
          if c = rbrace then some (.obj [], rest)
          else parseObjMember fuel (c :: rest) []

/-- One `"key": value` member followed by `,` (more members) or `}`.
Duplicate keys resolve by `setKey`, as `JSON.parse` does. -/
def parseObjMember : Nat → List Char → List (String × Json) → Option (Json × List Char)
  | 0, _, _ => none
  | fuel + 1, cs, acc =>
      match skipWs cs with
      | '"' :: r0 =>
          match parseStringBody [] r0 with
          | some (k, r1) =>
              match skipWs r1 with
              | ':' :: r2 =>
                  match parseVal fuel r2 with
                  | some (v, r3) =>
                      let acc' := setKey acc k v
                      match skipWs r3 with
                      | ',' :: r4 => parseObjMember fuel r4 acc'
                      | c2 :: r4 =>
                          if c2 = rbrace then some (.obj acc', r4) else none
                      | [] => none
                  | none => none
              | _ => none
          | none => none
      | _ => none

/-- Array body right after `[` (whitespace already skipped). -/
def parseArrBody : Nat → List Char → Option (Json × List Char)
  | 0, _ => none
  | fuel + 1, cs =>
      match cs with
      | ']' :: rest => some (.arr [], rest)
      | _ => parseArrElem fuel cs []

/-- One array element followed by `,` (more elements) or `]`. -/
def parseArrElem : Nat → List Char → List Json → Option (Json × List Char)
  | 0, _, _ => none
  | fuel + 1, cs, acc =>
      match parseVal fuel cs with
      | some (v, r1) =>
          match skipWs r1 with
          | ',' :: r2 => parseArrElem fuel r2 (v :: acc)
          | ']' :: r2 => some (.arr (v :: acc).reverse, r2)
          | _ => none
      | none => none

end

/-- `JSON.parse`: `some` on success (full input consumed up to trailing
whitespace), `none` when `JSON.parse` would throw. -/
def parseJson (s : String) : Option Json :=
  match parseVal (s.length + 2) s.data with
  | some (v, rest) => if skipWs rest = [] then some v else none
  | none => none

/-- The entries contributed by spreading a value into an object literal,
per JavaScript semantics: an object spreads its members, an array or string
spreads index-keyed elements, and primitives spread nothing. -/
def spreadEntries : Json → List (String × Json)
  | .obj kvs => kvs
  | .arr xs => xs.enum.map (fun p => (natStr p.1, p.2))
  | .str s => s.data.enum.map (fun p => (natStr p.1, .str (String.singleton p.2)))
  | _ => []

/-- Build an object's member list by assigning entries left to right
(the elaboration of an object literal containing spreads). -/
def assignAll (l : List (String × Json)) : List (String × Json) :=
  l.foldl (fun m kv => setKey m kv.1 kv.2) []

/-- `{ ...a, ...b }` from the Gemini adapter's argument merge. -/
def spreadMerge (a b : Json) : List (String × Json) :=
  assignAll (spreadEntries a ++ spreadEntries b)

/-- `typeof functionArgs === 'string' ? functionArgs : JSON.stringify(functionArgs)`. -/
def rawArgsString : Json → String
  | .str s => s
  | v => stringifyJson v

/-- `functionCall.args || {}`. -/
def argsOrEmpty : Option Json → Json
  | some v => if jsTruthy v then v else .obj []
  | none => .obj []

/-- `typeof functionArgs === 'string' ? JSON.parse(functionArgs) : functionArgs`
inside the merge's `try`; `none` models the parse throwing. -/
def newArgsParsed : Json → Option Json
  | .str s => parseJson s
  | v => some v

/-- The Gemini adapter's argument merge for a fragment of an already-known
tool call (`gemini-text-adapter` lines 256-269): parse the stored argument
string and the incoming arguments, shallow-merge with `{ ...existing, ...new }`
and re-stringify; if either parse throws, fall back to storing the incoming
fragment's raw argument text. -/
def mergeToolArgs (existing : String) (functionArgs : Json) : String :=
  match parseJson existing, newArgsParsed functionArgs with
  | some ea, some na => stringifyJson (.obj (spreadMerge ea na))
  | some _, none => rawArgsString functionArgs
  | none, _ => rawArgsString functionArgs

/-! ### The canonical stream-chunk model (`StreamChunk` in `@tanstack/ai`) -/

/-- Token usage reported on a `done` chunk. -/
structure UsageInfo where
  promptTokens : Nat
  completionTokens : Nat
  totalTokens : Nat
deriving DecidableEq, Repr

/-- The `toolCall` payload of a `tool_call` chunk (its `type` field is the
constant `'function'`). -/
structure ToolCallInfo where
  id : String
  name : String
  arguments : String
deriving DecidableEq, Repr

/-- The `error` payload of an `error` chunk. -/
structure ErrorInfo where
  message : String
  code : Option String
deriving DecidableEq, Repr

/-- One canonical stream chunk, as both adapters emit them. A `content`
chunk's `role` is always `'assistant'` in the sources, so it is not carried. -/
inductive StreamChunk where
  | content (id model : String) (timestamp : Nat) (delta text : String)
  | thinking (text : String) (id model : String) (timestamp : Nat)
  | toolCall (id model : String) (timestamp : Nat) (call : ToolCallInfo) (index : Nat)
  | done (id model : String) (timestamp : Nat) (finishReason : String) (usage : Option UsageInfo)
  | error (id model : String) (timestamp : Nat) (err : ErrorInfo)
deriving DecidableEq, Repr

/-- Modelled from the spec: `generateId` lives in the Gemini package's
`utils` module, which is not under `src/`; the spec (§3) only requires event
ids to be stream-scoped, not globally unique, identifiers. Modelled as the
adapter name plus a per-stream sequence number. No claim depends on id
values. -/
def generateId (name : String) (n : Nat) : String := name ++ "-" ++ natStr n

/-! ### Gemini text adapter (`GeminiTextAdapter.processStreamChunks`) -/

/-- A `functionCall` part payload from the Gemini SDK. -/
structure GeminiFunctionCall where
  id : Option String
  name : Option String
  args : Option Json

/-- One element of `chunk.candidates[0].content.parts`. -/
structure GeminiPart where
  text : Option String
  thought : Bool
  functionCall : Option GeminiFunctionCall

/-- Vendor finish reasons the adapter distinguishes; everything else
(including `STOP`) lands in `other`. -/
inductive GeminiFinish where
  | stop
  | maxTokens
  | unexpectedToolCall
  | other
deriving DecidableEq, Repr

/-- `chunk.usageMetadata`, with the optional token counts. -/
structure GeminiUsage where
  promptTokenCount : Option Nat
  candidatesTokenCount : Option Nat
  totalTokenCount : Option Nat

/-- `chunk.candidates[0]`. -/
structure GeminiCandidate where
  parts : Option (List GeminiPart)
  finishReason : Option GeminiFinish

/-- One raw chunk from `generateContentStream`. `now` is the `Date.now()`
value observed while this chunk is processed (used only to synthesize
tool-call keys); it is threaded explicitly since wall-clock time is not
otherwise observable in the model. -/
structure GeminiChunk where
  candidate : Option GeminiCandidate
  data : Option String
  usageMetadata : Option GeminiUsage
  now : Nat

/-- One record of the adapter's `toolCallMap`. -/
structure GeminiToolCallData where
  name : String
  args : String
  index : Nat
deriving DecidableEq, Repr

/-- The mutable state of one `processStreamChunks` invocation:
`accumulatedContent`, `toolCallMap` (insertion-ordered, as a JS `Map`),
`nextToolIndex`, and the sequence counter backing `generateId`. -/
structure GeminiState where
  accumulated : String
  toolCallMap : List (String × GeminiToolCallData)
  nextToolIndex : Nat
  idCtr : Nat
deriving DecidableEq, Repr

/-- `${functionCall.name}` inside a template literal: JavaScript prints
`undefined` for a missing name. -/
def keyName : Option String → String
  | some s => s
  | none => "undefined"

/-- The synthesized tool-call key
`` `${functionCall.name}_${Date.now()}_${nextToolIndex}` ``. -/
def synthKey (fc : GeminiFunctionCall) (now idx : Nat) : String :=
  keyName fc.name ++ "_" ++ natStr now ++ "_" ++ natStr idx

/-- `functionCall.id || <synthesized key>` (an empty vendor id is falsy). -/
def geminiToolCallId (fc : GeminiFunctionCall) (now idx : Nat) : String :=
  match truthyStr fc.id with
  | some i => i
  | none => synthKey fc now idx

/-- The `if (part.text)` branch of the part loop: a `thinking` chunk for
thought parts, otherwise accumulate and emit a `content` chunk. -/
def stepPartText (model : String) (ts : Nat) (st : GeminiState) (p : GeminiPart) :
    GeminiState × List StreamChunk :=
  match truthyStr p.text with
  | some t =>
      if p.thought then
        ({ st with idCtr := st.idCtr + 1 },
         [.thinking t (generateId "gemini" st.idCtr) model ts])
      else
        ({ st with accumulated := st.accumulated ++ t, idCtr := st.idCtr + 1 },
         [.content (generateId "gemini" st.idCtr) model ts t (st.accumulated ++ t)])
  | none => (st, [])

/-- The `if (functionCall)` branch of the part loop: create or merge the
`toolCallMap` record and emit a `tool_call` chunk reflecting it. -/
def stepPartCall (model : String) (ts now : Nat) (st : GeminiState) (p : GeminiPart) :
    GeminiState × List StreamChunk :=
  match p.functionCall with
  | none => (st, [])
  | some fc =>
      let toolCallId := geminiToolCallId fc now st.nextToolIndex
      let functionArgs := argsOrEmpty fc.args
      match lookupKey toolCallId st.toolCallMap with
      | none =>
          let d : GeminiToolCallData :=
            ⟨(truthyStr fc.name).getD "", rawArgsString functionArgs, st.nextToolIndex⟩
          ({ st with toolCallMap := setKey st.toolCallMap toolCallId d,
                     nextToolIndex := st.nextToolIndex + 1, idCtr := st.idCtr + 1 },
           [.toolCall (generateId "gemini" st.idCtr) model ts ⟨toolCallId, d.name, d.args⟩ d.index])
      | some d0 =>
          let d : GeminiToolCallData := { d0 with args := mergeToolArgs d0.args functionArgs }
          ({ st with toolCallMap := setKey st.toolCallMap toolCallId d, idCtr := st.idCtr + 1 },
           [.toolCall (generateId "gemini" st.idCtr) model ts ⟨toolCallId, d.name, d.args⟩ d.index])

/-- One part of the main part loop: the text branch, then the function-call
branch. -/
def stepPart (model : String) (ts now : Nat) (st : GeminiState) (p : GeminiPart) :
    GeminiState × List StreamChunk :=
  let r1 := stepPartText model ts st p
  let r2 := stepPartCall model ts now r1.1 p
  (r2.1, r1.2 ++ r2.2)

/-- `for (const part of parts)`, main loop. -/
def runParts (model : String) (ts now : Nat) :
    GeminiState → List GeminiPart → GeminiState × List StreamChunk
  | st, [] => (st, [])
  | st, p :: ps =>
      let r1 := stepPart model ts now st p
      let r2 := runParts model ts now r1.1 ps
      (r2.1, r1.2 ++ r2.2)

/-- One part of the `UNEXPECTED_TOOL_CALL` finish handler: unconditionally
(re)sets the map record for the computed key and emits a `tool_call` chunk
with index `nextToolIndex - 1` (after the increment). -/
def stepUnexpectedPart (model : String) (ts now : Nat) (st : GeminiState) (p : GeminiPart) :
    GeminiState × List StreamChunk :=
  match p.functionCall with
  | none => (st, [])
  | some fc =>
      let toolCallId := geminiToolCallId fc now st.nextToolIndex
      let functionArgs := argsOrEmpty fc.args
      let d : GeminiToolCallData :=
        ⟨(truthyStr fc.name).getD "", rawArgsString functionArgs, st.nextToolIndex⟩
      ({ st with toolCallMap := setKey st.toolCallMap toolCallId d,
                 nextToolIndex := st.nextToolIndex + 1, idCtr := st.idCtr + 1 },
       [.toolCall (generateId "gemini" st.idCtr) model ts
         ⟨toolCallId, (truthyStr fc.name).getD "", rawArgsString functionArgs⟩
         (st.nextToolIndex + 1 - 1)])

/-- `for (const part of ...)` inside the `UNEXPECTED_TOOL_CALL` handler. -/
def runUnexpected (model : String) (ts now : Nat) :
    GeminiState → List GeminiPart → GeminiState × List StreamChunk
  | st, [] => (st, [])
  | st, p :: ps =>
      let r1 := stepUnexpectedPart model ts now st p
      let r2 := runUnexpected model ts now r1.1 ps
      (r2.1, r1.2 ++ r2.2)

/-- `chunk.usageMetadata` mapped onto the canonical usage record
(`?? 0` on each count). -/
def mapGeminiUsage (u : GeminiUsage) : UsageInfo :=
  ⟨u.promptTokenCount.getD 0, u.candidatesTokenCount.getD 0, u.totalTokenCount.getD 0⟩

/-- The fixed MAX_TOKENS error message. -/
def maxTokensMsg : String :=
  "The response was cut off because the maximum token limit was reached."

/-- The content phase of the chunk loop: the parts loop when
`chunk.candidates?.[0]?.content?.parts` is present, otherwise the bare
`chunk.data` fallback. -/
def stepChunkBody (model : String) (ts : Nat) (st : GeminiState) (c : GeminiChunk) :
    GeminiState × List StreamChunk :=
  match c.candidate.bind (fun cand => cand.parts) with
  | some ps => runParts model ts c.now st ps
  | none =>
      match truthyStr c.data with
      | some d =>
          ({ st with accumulated := st.accumulated ++ d, idCtr := st.idCtr + 1 },
           [.content (generateId "gemini" st.idCtr) model ts d (st.accumulated ++ d)])
      | none => (st, [])

/-- The `UNEXPECTED_TOOL_CALL` special case of the finish block. -/
def finishUnexpected (model : String) (ts : Nat) (c : GeminiChunk) (fr : GeminiFinish)
    (st1 : GeminiState) : GeminiState × List StreamChunk :=
  if fr = GeminiFinish.unexpectedToolCall then
    match c.candidate.bind (fun cand => cand.parts) with
    | some ps => runUnexpected model ts c.now st1 ps
    | none => (st1, [])
  else (st1, [])

/-- The `MAX_TOKENS` special case of the finish block. -/
def finishMaxTok (model : String) (ts : Nat) (fr : GeminiFinish) (st2 : GeminiState) :
    GeminiState × List StreamChunk :=
  if fr = GeminiFinish.maxTokens then
    ({ st2 with idCtr := st2.idCtr + 1 },
     [StreamChunk.error (generateId "gemini" st2.idCtr) model ts ⟨maxTokensMsg, none⟩])
  else (st2, ([] : List StreamChunk))

/-- The `done` chunk the finish block always ends with: finish reason
`tool_calls` exactly when the tool-call map is non-empty, else `stop`. -/
def finishDone (model : String) (ts : Nat) (c : GeminiChunk) (st3 : GeminiState) : StreamChunk :=
  .done (generateId "gemini" st3.idCtr) model ts
    (if st3.toolCallMap.isEmpty then "stop" else "tool_calls")
    (c.usageMetadata.map mapGeminiUsage)

/-- The finish-reason block of the chunk loop: the `UNEXPECTED_TOOL_CALL`
synthesis, the `MAX_TOKENS` error chunk, then the `done` chunk. -/
def stepChunkFinish (model : String) (ts : Nat) (c : GeminiChunk) (fr : GeminiFinish)
    (st1 : GeminiState) : GeminiState × List StreamChunk :=
  let r2 := finishUnexpected model ts c fr st1
  let r3 := finishMaxTok model ts fr r2.1
  let dn : StreamChunk := finishDone model ts c r3.1
  ({ r3.1 with idCtr := r3.1.idCtr + 1 }, r2.2 ++ r3.2 ++ [dn])

/-- Processing of one raw Gemini chunk: the parts loop (or the bare
`chunk.data` fallback), then — when the candidate carries a finish reason —
the finish-reason block. -/
def stepChunk (model : String) (ts : Nat) (st : GeminiState) (c : GeminiChunk) :
    GeminiState × List StreamChunk :=
  let r1 := stepChunkBody model ts st c
  match c.candidate.bind (fun cand => cand.finishReason) with
  | none => r1
  | some fr =>
      let r2 := stepChunkFinish model ts c fr r1.1
      (r2.1, r1.2 ++ r2.2)

/-- The initial state of `processStreamChunks`. -/
def initGeminiState : GeminiState := ⟨"", [], 0, 0⟩

/-- `for await (const chunk of result)`. -/
def runGemini (model : String) (ts : Nat) :
    GeminiState → List GeminiChunk → GeminiState × List StreamChunk
  | st, [] => (st, [])
  | st, c :: rest =>
      let r1 := stepChunk model ts st c
      let r2 := runGemini model ts r1.1 rest
      (r2.1, r1.2 ++ r2.2)

/-- The chunks emitted by `processStreamChunks` on a raw chunk sequence. -/
def processGeminiChunks (model : String) (ts : Nat) (chunks : List GeminiChunk) :
    List StreamChunk :=
  (runGemini model ts initGeminiState chunks).2

/-- The message the Gemini `chatStream` catch block reports:
`error instanceof Error ? error.message : 'An unknown error occurred...'`. -/
def geminiCatchMessage (e : JsError) : String :=
  if e.isError then e.message else "An unknown error occurred during the chat stream."

/-- `GeminiTextAdapter.chatStream`: the whole vendor interaction sits inside
`try`, so an open failure (`.error e`) and a mid-iteration failure
(`merr = some e`) both become a single trailing canonical `error` chunk.
`tsCatch` is the `Date.now()` sampled inside the catch block. -/
def geminiChatStream (model : String) (ts tsCatch : Nat)
    (call : Except JsError (List GeminiChunk × Option JsError)) : List StreamChunk :=
  match call with
  | .error e =>
      [.error (generateId "gemini" 0) model tsCatch ⟨geminiCatchMessage e, none⟩]
  | .ok (chunks, merr) =>
      let r := runGemini model ts initGeminiState chunks
      r.2 ++ (match merr with
              | some e =>
                  [.error (generateId "gemini" r.1.idCtr) model tsCatch
                    ⟨geminiCatchMessage e, none⟩]
              | none => [])

/-! ### OpenAI adapter (`OpenAIAdapter.chatStream`, `chatCompletionStream`) -/

/-- One entry of `delta.tool_calls` (the nested `function` object's fields
are flattened: `name` is `toolCall.function?.name`, `arguments` is
`toolCall.function?.arguments`). -/
structure OpenAIToolCallDelta where
  id : Option String
  index : Option Nat
  name : Option String
  arguments : Option String
deriving DecidableEq, Repr

/-- `chunk.choices[0].delta`. -/
structure OpenAIDelta where
  content : Option String
  tool_calls : Option (List OpenAIToolCallDelta)
  role : Option String
deriving DecidableEq, Repr

/-- `chunk.choices[0]`. -/
structure OpenAIChoice where
  delta : Option OpenAIDelta
  finish_reason : Option String
deriving DecidableEq, Repr

/-- `chunk.usage`, with optional counts. -/
structure OpenAIUsage where
  prompt_tokens : Option Nat
  completion_tokens : Option Nat
  total_tokens : Option Nat
deriving DecidableEq, Repr

/-- One raw chunk of the OpenAI SDK stream. `choice` is `chunk.choices[0]`
(`none` when `choices` is empty); `now` is the `Date.now()` value observed
while this chunk is processed (used only for synthesized tool-call ids). -/
structure OpenAIChunk where
  id : String
  model : String
  choice : Option OpenAIChoice
  usage : Option OpenAIUsage
  now : Nat
deriving DecidableEq, Repr

/-- `chunk.usage` mapped onto the canonical usage record (`|| 0`). -/
def mapOpenAIUsage (u : OpenAIUsage) : UsageInfo :=
  ⟨u.prompt_tokens.getD 0, u.completion_tokens.getD 0, u.total_tokens.getD 0⟩

/-- The `tool_call` chunk `chatStream` yields for one `delta.tool_calls`
entry: a missing or empty vendor id is replaced by
`` `call_${Date.now()}` `` — no function name, no counter. -/
def openaiToolCallChunk (c : OpenAIChunk) (ts : Nat) (tc : OpenAIToolCallDelta) : StreamChunk :=
  .toolCall c.id c.model ts
    ⟨(truthyStr tc.id).getD ("call_" ++ natStr c.now),
     (truthyStr tc.name).getD "",
     (truthyStr tc.arguments).getD ""⟩
    (tc.index.getD 0)

/-- The body of `chatStream`'s `for await` loop for one chunk: the content
branch, the tool-call branch, then the finish branch. The only loop state is
`accumulatedContent`. -/
def stepOpenAIChunk (ts : Nat) (acc : String) (c : OpenAIChunk) : String × List StreamChunk :=
  let delta := c.choice.bind (fun ch => ch.delta)
  let rc : String × List StreamChunk :=
    match delta.bind (fun d => truthyStr d.content) with
    | some s => (acc ++ s, [StreamChunk.content c.id c.model ts s (acc ++ s)])
    | none => (acc, [])
  let toolOut :=
    match delta.bind (fun d => d.tool_calls) with
    | some tcs => tcs.map (openaiToolCallChunk c ts)
    | none => []
  let doneOut :=
    match truthyStr (c.choice.bind (fun ch => ch.finish_reason)) with
    | some fr => [StreamChunk.done c.id c.model ts fr (c.usage.map mapOpenAIUsage)]
    | none => []
  (rc.1, rc.2 ++ toolOut ++ doneOut)

/-- `for await (const chunk of stream)` of `chatStream`. -/
def runOpenAI (ts : Nat) : String → List OpenAIChunk → String × List StreamChunk
  | acc, [] => (acc, [])
  | acc, c :: rest =>
      let r1 := stepOpenAIChunk ts acc c
      let r2 := runOpenAI ts r1.1 rest
      (r2.1, r1.2 ++ r2.2)

/-- Modelled from the spec: `BaseAdapter.generateId` (the `@tanstack/ai`
base class is not under `src/`) returns an opaque identifier; no claim
depends on its value. -/
def baseGenerateId (n : Nat) : String := "openai-" ++ natStr n

/-- `error.message || "Unknown error occurred"` in `chatStream`'s catch. -/
def openaiCatchMessage (e : JsError) : String :=
  if e.message = "" then "Unknown error occurred" else e.message

/-- The chunks `chatStream` emits once the vendor stream is open: the loop's
chunks, plus — when iterating the stream throws (`merr = some e`) — the
single `error` chunk its catch block yields. `model` is the already
defaulted `options.model || "gpt-3.5-turbo"`. -/
def openaiEmittedChunks (model : String) (ts : Nat) (chunks : List OpenAIChunk)
    (merr : Option JsError) : List StreamChunk :=
  (runOpenAI ts "" chunks).2 ++
    (match merr with
     | some e => [.error (baseGenerateId 0) model ts ⟨openaiCatchMessage e, e.code⟩]
     | none => [])

/-- `OpenAIAdapter.chatStream`. The `await this.client.chat.completions.create`
call sits OUTSIDE the `try`, so an open failure (`.error e`) propagates as an
exception (`Except.error`); only failures while iterating are converted to an
`error` chunk. -/
def openaiChatStream (model : String) (ts : Nat)
    (call : Except JsError (List OpenAIChunk × Option JsError)) :
    Except JsError (List StreamChunk) :=
  match call with
  | .error e => .error e
  | .ok (chunks, merr) => .ok (openaiEmittedChunks model ts chunks merr)

/-- The simplified chunk type `chatCompletionStream` yields. -/
structure CompletionChunk where
  id : String
  model : String
  content : String
  role : Option String
  finishReason : Option String
deriving DecidableEq, Repr

/-- `OpenAIAdapter.chatCompletionStream`: yields one chunk per vendor chunk
whose `delta.content` is truthy (non-empty), carrying THAT chunk's
`finish_reason`; all other vendor chunks yield nothing. -/
def chatCompletionStream (chunks : List OpenAIChunk) : List CompletionChunk :=
  chunks.filterMap (fun c =>
    match (c.choice.bind (fun ch => ch.delta)).bind (fun d => truthyStr d.content) with
    | some s =>
        some ⟨c.id, c.model, s,
              (c.choice.bind (fun ch => ch.delta)).bind (fun d => d.role),
              c.choice.bind (fun ch => ch.finish_reason)⟩
    | none => none)

/-! ### Response bridge (`stream-to-response.ts`) and PHP SSE server -/

/-- `UsageInfo` as the JSON object the adapters build. -/
def usageToJson (u : UsageInfo) : Json :=
  .obj [("promptTokens", .num (u.promptTokens : Int)),
        ("completionTokens", .num (u.completionTokens : Int)),
        ("totalTokens", .num (u.totalTokens : Int))]

/-- A canonical chunk as the JSON object the adapters construct (fields in
construction order; `undefined`-valued fields are dropped, as
`JSON.stringify` drops them). -/
def chunkToJson : StreamChunk → Json
  | .content id model ts d txt =>
      .obj [("type", .str "content"), ("id", .str id), ("model", .str model),
            ("timestamp", .num (ts : Int)), ("delta", .str d), ("content", .str txt),
            ("role", .str "assistant")]
  | .thinking txt id model ts =>
      .obj [("type", .str "thinking"), ("content", .str txt), ("id", .str id),
            ("model", .str model), ("timestamp", .num (ts : Int))]
  | .toolCall id model ts call idx =>
      .obj [("type", .str "tool_call"), ("id", .str id), ("model", .str model),
            ("timestamp", .num (ts : Int)),
            ("toolCall", .obj [("id", .str call.id), ("type", .str "function"),
              ("function", .obj [("name", .str call.name),
                ("arguments", .str call.arguments)])]),
            ("index", .num (idx : Int))]
  | .done id model ts fr usage =>
      .obj ([("type", .str "done"), ("id", .str id), ("model", .str model),
             ("timestamp", .num (ts : Int)), ("finishReason", .str fr)] ++
            (match usage with
             | some u => [("usage", usageToJson u)]
             | none => []))
  | .error id model ts err =>
      .obj [("type", .str "error"), ("id", .str id), ("model", .str model),
            ("timestamp", .num (ts : Int)),
            ("error", .obj ([("message", .str err.message)] ++
              (match err.code with
               | some c => [("code", .str c)]
               | none => [])))]

/-- `JSON.stringify(chunk)`. -/
def encodeStreamChunk (c : StreamChunk) : String := stringifyJson (chunkToJson c)

/-- One SSE record: `` `data: ${payload}\n\n` ``. -/
def sseRecord (payload : String) : String := "data: " ++ payload ++ "\n\n"

/-- The completion marker record `data: [DONE]\n\n`. -/
def doneSentinel : String := "data: [DONE]\n\n"

/-- The ad-hoc payload `toReadableStream`'s catch block serializes: only
`type` and `error` fields (no id, model or timestamp), with
`error.message || "Unknown error occurred"` and the optional code. -/
def tsCatchPayload (e : JsError) : Json :=
  .obj [("type", .str "error"),
        ("error", .obj ([("message",
            .str (if e.message = "" then "Unknown error occurred" else e.message))] ++
          (match e.code with
           | some c => [("code", .str c)]
           | none => [])))]

/-- `toReadableStream`: every source chunk becomes one `data:` record; when
the source iterable completes, the `[DONE]` marker is enqueued; when
iterating it throws (`merr = some e`), the catch enqueues one error record
and closes WITHOUT the marker. The result is the concatenated byte stream
(as a string). -/
def toReadableStream (chunks : List StreamChunk) (merr : Option JsError) : String :=
  match merr with
  | none =>
      String.join (chunks.map (fun c => sseRecord (encodeStreamChunk c))) ++ doneSentinel
  | some e =>
      String.join (chunks.map (fun c => sseRecord (encodeStreamChunk c))) ++
        sseRecord (stringifyJson (tsCatchPayload e))

/-- Modelled from the spec: `SSEFormatter::formatChunk` (the PHP package is
not under `src/`; only its call sites are) frames one JSON-encoded chunk as a
`data:` record with a double newline; the payload is abstracted as the
already-encoded string. -/
def phpFormatChunk (payload : String) : String := "data: " ++ payload ++ "\n\n"

/-- Modelled from the spec: `SSEFormatter::formatDone` produces the final
sentinel record `data: [DONE]\n\n`. -/
def phpFormatDone : String := "data: [DONE]\n\n"

/-- The echo output of the PHP Slim `/chat` handler's streaming section
(`openai-server.php` lines 178-217): chunk records, then on normal completion
the `[DONE]` marker; when the vendor stream throws, one error-chunk record is
echoed and the handler `exit`s — without the marker. -/
def phpChatOutput (payloads : List String) (merr : Option String) : String :=
  match merr with
  | none => String.join (payloads.map phpFormatChunk) ++ phpFormatDone
  | some e => String.join (payloads.map phpFormatChunk) ++ phpFormatChunk e

/-! ### The tool-calling demo loop (`src/unnamed/part_000`, `demo`) -/

/-- One accumulated tool call of the demo (`{id, name, args}`). -/
structure DemoToolCall where
  id : String
  name : String
  args : String
deriving DecidableEq, Repr

/-- A conversation message as the demo builds them. -/
structure DemoMsg where
  role : String
  content : Option String
  toolCalls : List DemoToolCall
  toolCallId : Option String
  name : Option String
deriving DecidableEq, Repr

/-- Per-round accumulation state of the demo's streaming loop: the last
`content` seen, the `toolCallsMap` keyed by chunk index, and the `toolCalls`
array filled when a `done(tool_calls)` chunk arrives. -/
structure DemoRound where
  content : String
  map : List (Nat × DemoToolCall)
  toolCalls : List DemoToolCall
deriving DecidableEq, Repr

/-- The demo's `for await (const chunk ...)` body for one canonical chunk. -/
def demoStepChunk (st : DemoRound) (c : StreamChunk) : DemoRound :=
  match c with
  | .content _ _ _ _ txt => { st with content := txt }
  | .toolCall _ _ _ call idx =>
      let existing := (lookupKey idx st.map).getD ⟨call.id, "", ""⟩
      let existing1 :=
        { existing with name := if call.name = "" then existing.name else call.name }
      let existing2 := { existing1 with args := existing1.args ++ call.arguments }
      { st with map := setKey st.map idx existing2 }
  | .done _ _ _ fr _ =>
      if fr = "tool_calls" then
        { st with toolCalls := st.toolCalls ++ st.map.map (fun p => p.2) }
      else st
  | _ => st

/-- One streamed round of the demo: the final `content` and the accumulated
`toolCalls`. -/
def demoRound (chunks : List StreamChunk)  : String × List DemoToolCall :=
  let st := chunks.foldl demoStepChunk ⟨"", [], []⟩
  (st.content, st.toolCalls)

/-- The assistant message the demo pushes before executing tools
(`content: content || null`). -/
def assistantMsg (content : String) (toolCalls : List DemoToolCall) : DemoMsg :=
  ⟨"assistant", if content = "" then none else some content, toolCalls, none, none⟩

/-- The `tool`-role result message the demo pushes per executed call. -/
def toolResultMsg (result : String) (call : DemoToolCall) : DemoMsg :=
  ⟨"tool", some result, [], some call.id, some call.name⟩

/-- The demo's `while (iteration < maxIterations)` loop, as structural
recursion on the remaining iteration budget (`maxIterations - iteration`).
`respond` is the adapter stream for the current messages; `runTool` is the
per-call tool execution (`calculate` catches its own errors, so it is a total
function of the call). Returns the number of tool-execution rounds performed
and the final messages. -/
def demoLoopFuel (respond : List DemoMsg → List StreamChunk)
    (runTool : DemoToolCall → String) :
    Nat → List DemoMsg → Nat → Nat × List DemoMsg
  | 0, messages, rounds => (rounds, messages)
  | fuel + 1, messages, rounds =>
      let r := demoRound (respond messages)
      if r.2.isEmpty then (rounds, messages)
      else
        demoLoopFuel respond runTool fuel
          ((messages ++ [assistantMsg r.1 r.2]) ++
            r.2.map (fun call => toolResultMsg (runTool call) call))
          (rounds + 1)

/-- The demo loop from its start (`iteration = 0`). -/
def demoRun (respond : List DemoMsg → List StreamChunk)
    (runTool : DemoToolCall → String) (maxIterations : Nat)
    (messages : List DemoMsg) : Nat × List DemoMsg :=
  demoLoopFuel respond runTool maxIterations messages 0

/-! ### General lemmas about the assoc-list map operations -/

theorem strExt {a b : String} (h : a.data = b.data) : a = b := congrArg String.mk h

theorem lookupKey_setKey {α β : Type} [DecidableEq α] (m : List (α × β)) (k k' : α) (v : β) :
    lookupKey k' (setKey m k v) = if k = k' then some v else lookupKey k' m := by
  induction m with
  | nil =>
      by_cases h : k = k' <;> simp [setKey, lookupKey, h]
  | cons a rest ih =>
      obtain ⟨a1, a2⟩ := a
      by_cases h1 : a1 = k
      · subst h1
        by_cases h2 : a1 = k' <;> simp [setKey, lookupKey, h2]
      · by_cases h2 : a1 = k'
        · subst h2
          have hk : ¬ (k = a1) := fun hh => h1 hh.symm
          simp [setKey, lookupKey, h1, hk]
        · simp [setKey, lookupKey, h1, h2, ih]

theorem setKey_ne_nil {α β : Type} [DecidableEq α] (m : List (α × β)) (k : α) (v : β) :
    setKey m k v ≠ [] := by
  cases m with
  | nil => simp [setKey]
  | cons a rest =>
      obtain ⟨a1, a2⟩ := a
      by_cases h : a1 = k <;> simp [setKey, h]

theorem setKey_isEmpty {α β : Type} [DecidableEq α] (m : List (α × β)) (k : α) (v : β) :
    (setKey m k v).isEmpty = false := by
  have := setKey_ne_nil m k v
  cases h : setKey m k v with
  | nil => exact absurd h this
  | cons a rest => simp [List.isEmpty]

/-! ### Content accumulation (claim C1's invariant) -/

/-- The `delta` contributed by a chunk (empty for non-content chunks). -/
def chunkDelta : StreamChunk → String
  | .content _ _ _ d _ => d
  | _ => ""

/-- Concatenation, in order, of the `delta` fields of a chunk list's
content chunks. -/
def deltasConcat : List StreamChunk → String
  | [] => ""
  | c :: rest => chunkDelta c ++ deltasConcat rest

/-- One chunk is consistent with the accumulation so far: a content chunk's
`content` field equals the prior deltas' concatenation plus its own delta. -/
def chunkAccumOk (acc : String) : StreamChunk → Prop
  | .content _ _ _ d txt => txt = acc ++ d
  | _ => True

/-- Every content chunk of the list carries the concatenation of the deltas
of itself and all earlier content chunks, starting from `acc`. -/
def accumOk : String → List StreamChunk → Prop
  | _, [] => True
  | acc, c :: rest => chunkAccumOk acc c ∧ accumOk (acc ++ chunkDelta c) rest

theorem deltasConcat_append (l1 l2 : List StreamChunk) :
    deltasConcat (l1 ++ l2) = deltasConcat l1 ++ deltasConcat l2 := by
  induction l1 with
  | nil => simp [deltasConcat]
  | cons c rest ih => simp [deltasConcat, ih, String.append_assoc]

theorem accumOk_append (acc : String) (l1 l2 : List StreamChunk) :
    accumOk acc (l1 ++ l2) ↔ accumOk acc l1 ∧ accumOk (acc ++ deltasConcat l1) l2 := by
  induction l1 generalizing acc with
  | nil => simp [accumOk, deltasConcat]
  | cons c rest ih =>
      simp [accumOk, ih, deltasConcat, String.append_assoc, and_assoc]

/-- Chunks that are not content chunks. -/
def nonContent : StreamChunk → Bool
  | .content _ _ _ _ _ => false
  | _ => true

theorem chunkDelta_of_nonContent {c : StreamChunk} (h : nonContent c = true) :
    chunkDelta c = "" := by
  cases c <;> simp_all [nonContent, chunkDelta]

theorem chunkAccumOk_of_nonContent {c : StreamChunk} (h : nonContent c = true)
    (acc : String) : chunkAccumOk acc c := by
  cases c <;> simp_all [nonContent, chunkAccumOk]

theorem accumOk_of_nonContent {l : List StreamChunk} (h : ∀ c ∈ l, nonContent c = true)
    (acc : String) : accumOk acc l := by
  induction l generalizing acc with
  | nil => trivial
  | cons c rest ih =>
      exact ⟨chunkAccumOk_of_nonContent (h c (by simp)) acc,
             ih (fun x hx => h x (by simp [hx])) _⟩

theorem deltasConcat_of_nonContent {l : List StreamChunk} (h : ∀ c ∈ l, nonContent c = true) :
    deltasConcat l = "" := by
  induction l with
  | nil => rfl
  | cons c rest ih =>
      simp [deltasConcat, chunkDelta_of_nonContent (h c (by simp)),
            ih (fun x hx => h x (by simp [hx]))]

/-! ### Accumulation lemmas for the Gemini adapter -/

theorem stepPartText_accum (model : String) (ts : Nat) (st : GeminiState) (p : GeminiPart) :
    (stepPartText model ts st p).1.accumulated =
      st.accumulated ++ deltasConcat (stepPartText model ts st p).2 ∧
    accumOk st.accumulated (stepPartText model ts st p).2 := by
  unfold stepPartText
  cases h : truthyStr p.text with
  | none => simp [deltasConcat, accumOk, String.append_empty]
  | some t =>
      cases hb : p.thought <;>
        simp [deltasConcat, chunkDelta, accumOk, chunkAccumOk, String.append_empty]

theorem stepPartCall_state (model : String) (ts now : Nat) (st : GeminiState) (p : GeminiPart) :
    (stepPartCall model ts now st p).1.accumulated = st.accumulated ∧
    ∀ x ∈ (stepPartCall model ts now st p).2, nonContent x = true := by
  unfold stepPartCall
  cases p.functionCall with
  | none => simp
  | some fc =>
      cases h : lookupKey (geminiToolCallId fc now st.nextToolIndex) st.toolCallMap with
      | none => simp [h, nonContent]
      | some d0 => simp [h, nonContent]

theorem stepPart_accum (model : String) (ts now : Nat) (st : GeminiState) (p : GeminiPart) :
    (stepPart model ts now st p).1.accumulated =
      st.accumulated ++ deltasConcat (stepPart model ts now st p).2 ∧
    accumOk st.accumulated (stepPart model ts now st p).2 := by
  have h1 := stepPartText_accum model ts st p
  have h2 := stepPartCall_state model ts now (stepPartText model ts st p).1 p
  simp only [stepPart]
  constructor
  · rw [deltasConcat_append, h2.1, h1.1, deltasConcat_of_nonContent h2.2,
        String.append_empty]
  · rw [accumOk_append]
    exact ⟨h1.2, accumOk_of_nonContent h2.2 _⟩

theorem runParts_accum (model : String) (ts now : Nat) (ps : List GeminiPart) :
    ∀ st : GeminiState,
      (runParts model ts now st ps).1.accumulated =
        st.accumulated ++ deltasConcat (runParts model ts now st ps).2 ∧
      accumOk st.accumulated (runParts model ts now st ps).2 := by
  induction ps with
  | nil => intro st; simp [runParts, deltasConcat, accumOk, String.append_empty]
  | cons p ps ih =>
      intro st
      have h1 := stepPart_accum model ts now st p
      have h2 := ih (stepPart model ts now st p).1
      simp only [runParts]
      constructor
      · rw [deltasConcat_append, h2.1, h1.1, String.append_assoc]
      · rw [accumOk_append]
        exact ⟨h1.2, h1.1 ▸ h2.2⟩

theorem stepChunkBody_accum (model : String) (ts : Nat) (st : GeminiState) (c : GeminiChunk) :
    (stepChunkBody model ts st c).1.accumulated =
      st.accumulated ++ deltasConcat (stepChunkBody model ts st c).2 ∧
    accumOk st.accumulated (stepChunkBody model ts st c).2 := by
  unfold stepChunkBody
  cases c.candidate.bind (fun cand => cand.parts) with
  | some ps => exact runParts_accum model ts c.now ps st
  | none =>
      cases truthyStr c.data with
      | some d => simp [deltasConcat, chunkDelta, accumOk, chunkAccumOk, String.append_empty]
      | none => simp [deltasConcat, accumOk, String.append_empty]

theorem stepUnexpectedPart_state (model : String) (ts now : Nat) (st : GeminiState)
    (p : GeminiPart) :
    (stepUnexpectedPart model ts now st p).1.accumulated = st.accumulated ∧
    ∀ x ∈ (stepUnexpectedPart model ts now st p).2, nonContent x = true := by
  unfold stepUnexpectedPart
  cases p.functionCall with
  | none => simp
  | some fc => simp [nonContent]

theorem runUnexpected_state (model : String) (ts now : Nat) (ps : List GeminiPart) :
    ∀ st : GeminiState,
      (runUnexpected model ts now st ps).1.accumulated = st.accumulated ∧
      ∀ x ∈ (runUnexpected model ts now st ps).2, nonContent x = true := by
  induction ps with
  | nil => intro st; simp [runUnexpected]
  | cons p ps ih =>
      intro st
      have h1 := stepUnexpectedPart_state model ts now st p
      have h2 := ih (stepUnexpectedPart model ts now st p).1
      simp only [runUnexpected]
      refine ⟨h2.1.trans h1.1, ?_⟩
      intro x hx
      rcases List.mem_append.1 hx with hx1 | hx2
      · exact h1.2 x hx1
      · exact h2.2 x hx2

theorem finishUnexpected_state (model : String) (ts : Nat) (c : GeminiChunk)
    (fr : GeminiFinish) (st1 : GeminiState) :
    (finishUnexpected model ts c fr st1).1.accumulated = st1.accumulated ∧
    ∀ x ∈ (finishUnexpected model ts c fr st1).2, nonContent x = true := by
  unfold finishUnexpected
  by_cases hu : fr = GeminiFinish.unexpectedToolCall
  · rw [if_pos hu]
    cases hp : c.candidate.bind (fun cand => cand.parts) with
    | some ps => exact runUnexpected_state model ts c.now ps st1
    | none => simp
  · rw [if_neg hu]
    simp

theorem finishMaxTok_state (model : String) (ts : Nat) (fr : GeminiFinish)
    (st2 : GeminiState) :
    (finishMaxTok model ts fr st2).1.accumulated = st2.accumulated ∧
    ∀ x ∈ (finishMaxTok model ts fr st2).2, nonContent x = true := by
  unfold finishMaxTok
  by_cases hm : fr = GeminiFinish.maxTokens
  · rw [if_pos hm]
    refine ⟨rfl, ?_⟩
    intro x hx
    rcases List.mem_singleton.1 hx with rfl
    rfl
  · rw [if_neg hm]
    simp

theorem stepChunkFinish_state (model : String) (ts : Nat) (c : GeminiChunk)
    (fr : GeminiFinish) (st1 : GeminiState) :
    (stepChunkFinish model ts c fr st1).1.accumulated = st1.accumulated ∧
    ∀ x ∈ (stepChunkFinish model ts c fr st1).2, nonContent x = true := by
  have h2 := finishUnexpected_state model ts c fr st1
  have h3 := finishMaxTok_state model ts fr (finishUnexpected model ts c fr st1).1
  simp only [stepChunkFinish]
  refine ⟨h3.1.trans h2.1, ?_⟩
  intro x hx
  rcases List.mem_append.1 hx with hx | hx
  · rcases List.mem_append.1 hx with hx | hx
    · exact h2.2 x hx
    · exact h3.2 x hx
  · rcases List.mem_singleton.1 hx with rfl
    rfl

theorem stepChunk_accum (model : String) (ts : Nat) (st : GeminiState) (c : GeminiChunk) :
    (stepChunk model ts st c).1.accumulated =
      st.accumulated ++ deltasConcat (stepChunk model ts st c).2 ∧
    accumOk st.accumulated (stepChunk model ts st c).2 := by
  have h1 := stepChunkBody_accum model ts st c
  simp only [stepChunk]
  cases c.candidate.bind (fun cand => cand.finishReason) with
  | none => exact h1
  | some fr =>
      have h2 := stepChunkFinish_state model ts c fr (stepChunkBody model ts st c).1
      constructor
      · rw [deltasConcat_append, h2.1, h1.1, deltasConcat_of_nonContent h2.2,
            String.append_empty]
      · rw [accumOk_append]
        exact ⟨h1.2, accumOk_of_nonContent h2.2 _⟩

theorem runGemini_accum (model : String) (ts : Nat) (cs : List GeminiChunk) :
    ∀ st : GeminiState,
      (runGemini model ts st cs).1.accumulated =
        st.accumulated ++ deltasConcat (runGemini model ts st cs).2 ∧
      accumOk st.accumulated (runGemini model ts st cs).2 := by
  induction cs with
  | nil => intro st; simp [runGemini, deltasConcat, accumOk, String.append_empty]
  | cons c cs ih =>
      intro st
      have h1 := stepChunk_accum model ts st c
      have h2 := ih (stepChunk model ts st c).1
      simp only [runGemini]
      constructor
      · rw [deltasConcat_append, h2.1, h1.1, String.append_assoc]
      · rw [accumOk_append]
        exact ⟨h1.2, h1.1 ▸ h2.2⟩

/-! ### Accumulation lemmas for the OpenAI adapter -/

theorem stepOpenAIChunk_accum (ts : Nat) (acc : String) (c : OpenAIChunk) :
    (stepOpenAIChunk ts acc c).1 =
      acc ++ deltasConcat (stepOpenAIChunk ts acc c).2 ∧
    accumOk acc (stepOpenAIChunk ts acc c).2 := by
  have htail : ∀ x ∈ ((match (c.choice.bind (fun ch => ch.delta)).bind (fun d => d.tool_calls) with
      | some tcs => tcs.map (openaiToolCallChunk c ts)
      | none => ([] : List StreamChunk)) ++
      (match truthyStr (c.choice.bind (fun ch => ch.finish_reason)) with
      | some fr => [StreamChunk.done c.id c.model ts fr (c.usage.map mapOpenAIUsage)]
      | none => ([] : List StreamChunk))), nonContent x = true := by
    intro x hx
    rcases List.mem_append.1 hx with hx | hx
    · revert hx
      cases (c.choice.bind (fun ch => ch.delta)).bind (fun d => d.tool_calls) with
      | none => simp
      | some tcs =>
          intro hx
          rcases List.mem_map.1 hx with ⟨tc, _, rfl⟩
          rfl
    · revert hx
      cases truthyStr (c.choice.bind (fun ch => ch.finish_reason)) with
      | none => simp
      | some fr =>
          intro hx
          rcases List.mem_singleton.1 hx with rfl
          rfl
  simp only [stepOpenAIChunk]
  cases hc : (c.choice.bind (fun ch => ch.delta)).bind (fun d => truthyStr d.content) with
  | none =>
      simp only [hc, List.nil_append]
      exact ⟨by rw [deltasConcat_of_nonContent htail, String.append_empty],
             accumOk_of_nonContent htail acc⟩
  | some s =>
      simp only [hc, List.cons_append, List.append_assoc, List.nil_append]
      constructor
      · simp [deltasConcat, chunkDelta, deltasConcat_of_nonContent htail, String.append_empty]
      · exact ⟨rfl, accumOk_of_nonContent htail _⟩

theorem runOpenAI_accum (ts : Nat) (cs : List OpenAIChunk) :
    ∀ acc : String,
      (runOpenAI ts acc cs).1 = acc ++ deltasConcat (runOpenAI ts acc cs).2 ∧
      accumOk acc (runOpenAI ts acc cs).2 := by
  induction cs with
  | nil => intro acc; simp [runOpenAI, deltasConcat, accumOk, String.append_empty]
  | cons c cs ih =>
      intro acc
      have h1 := stepOpenAIChunk_accum ts acc c
      have h2 := ih (stepOpenAIChunk ts acc c).1
      simp only [runOpenAI]
      constructor
      · rw [deltasConcat_append, h2.1, h1.1, String.append_assoc]
      · rw [accumOk_append]
        exact ⟨h1.2, h1.1 ▸ h2.2⟩

theorem geminiChatStream_accumOk (model : String) (ts tsCatch : Nat)
    (call : Except JsError (List GeminiChunk × Option JsError)) :
    accumOk "" (geminiChatStream model ts tsCatch call) := by
  unfold geminiChatStream
  cases call with
  | error e => exact ⟨trivial, trivial⟩
  | ok pr =>
      obtain ⟨chunks, merr⟩ := pr
      simp only []
      rw [accumOk_append]
      have h := runGemini_accum model ts chunks initGeminiState
      refine ⟨h.2, ?_⟩
      cases merr with
      | none => trivial
      | some e => exact ⟨trivial, trivial⟩

theorem openaiEmittedChunks_accumOk (model : String) (ts : Nat)
    (chunks : List OpenAIChunk) (merr : Option JsError) :
    accumOk "" (openaiEmittedChunks model ts chunks merr) := by
  unfold openaiEmittedChunks
  rw [accumOk_append]
  have h := runOpenAI_accum ts chunks ""
  refine ⟨h.2, ?_⟩
  cases merr with
  | none => trivial
  | some e => exact ⟨trivial, trivial⟩

theorem accumOk_decomp {acc : String} {l pre post : List StreamChunk}
    {idv mo : String} {t : Nat} {d txt : String}
    (h : accumOk acc l) (hl : l = pre ++ StreamChunk.content idv mo t d txt :: post) :
    txt = acc ++ (deltasConcat pre ++ d) := by
  subst hl
  rw [accumOk_append] at h
  have h2 : chunkAccumOk (acc ++ deltasConcat pre) (StreamChunk.content idv mo t d txt) :=
    h.2.1
  rw [show txt = acc ++ deltasConcat pre ++ d from h2, String.append_assoc]

/-- C1: in every stream either adapter's `chatStream` emits, every content
chunk's accumulated `content` field equals the concatenation, in emission
order, of the `delta` fields of that chunk and all earlier content chunks:
whenever the emitted sequence decomposes as `pre ++ [content chunk] ++ post`,
the chunk's `content` is `deltasConcat pre ++ delta`. In particular (taking
the last content chunk) the final accumulated text is the concatenation of
all deltas in order. -/
theorem c1_content_accumulation
    (model : String) (ts tsCatch : Nat)
    (gcall : Except JsError (List GeminiChunk × Option JsError))
    (model2 : String) (ts2 : Nat) (ochunks : List OpenAIChunk) (omerr : Option JsError)
    (pre post pre2 post2 : List StreamChunk) (idv mo idv2 mo2 : String) (t t2 : Nat)
    (d txt d2 txt2 : String) :
    (geminiChatStream model ts tsCatch gcall =
        pre ++ StreamChunk.content idv mo t d txt :: post →
      txt = deltasConcat pre ++ d) ∧
    (openaiEmittedChunks model2 ts2 ochunks omerr =
        pre2 ++ StreamChunk.content idv2 mo2 t2 d2 txt2 :: post2 →
      txt2 = deltasConcat pre2 ++ d2) := by
  constructor
  · intro hl
    have h := accumOk_decomp (geminiChatStream_accumOk model ts tsCatch gcall) hl
    rwa [String.empty_append] at h
  · intro hl
    have h := accumOk_decomp (openaiEmittedChunks_accumOk model2 ts2 ochunks omerr) hl
    rwa [String.empty_append] at h

/-! ### Claim C2: terminal events -/

/-- Terminal-type chunks: `done` or `error`. -/
def isTerminal : StreamChunk → Bool
  | .done _ _ _ _ _ => true
  | .error _ _ _ _ => true
  | _ => false

/-- `done` chunks. -/
def isDoneChunk : StreamChunk → Bool
  | .done _ _ _ _ _ => true
  | _ => false

theorem stepPartText_nonterminal (model : String) (ts : Nat) (st : GeminiState)
    (p : GeminiPart) : ∀ x ∈ (stepPartText model ts st p).2, isTerminal x = false := by
  unfold stepPartText
  cases truthyStr p.text with
  | none => simp
  | some t =>
      cases hb : p.thought <;>
        (intro x hx; rcases List.mem_singleton.1 hx with rfl; rfl)

theorem stepPartCall_nonterminal (model : String) (ts now : Nat) (st : GeminiState)
    (p : GeminiPart) : ∀ x ∈ (stepPartCall model ts now st p).2, isTerminal x = false := by
  unfold stepPartCall
  cases p.functionCall with
  | none => simp
  | some fc =>
      cases h : lookupKey (geminiToolCallId fc now st.nextToolIndex) st.toolCallMap <;>
        simp [h, isTerminal]

theorem stepPart_nonterminal (model : String) (ts now : Nat) (st : GeminiState)
    (p : GeminiPart) : ∀ x ∈ (stepPart model ts now st p).2, isTerminal x = false := by
  simp only [stepPart]
  intro x hx
  rcases List.mem_append.1 hx with hx | hx
  · exact stepPartText_nonterminal model ts st p x hx
  · exact stepPartCall_nonterminal model ts now _ p x hx

theorem runParts_nonterminal (model : String) (ts now : Nat) (ps : List GeminiPart) :
    ∀ st : GeminiState, ∀ x ∈ (runParts model ts now st ps).2, isTerminal x = false := by
  induction ps with
  | nil => intro st; simp [runParts]
  | cons p ps ih =>
      intro st
      simp only [runParts]
      intro x hx
      rcases List.mem_append.1 hx with hx | hx
      · exact stepPart_nonterminal model ts now st p x hx
      · exact ih _ x hx

theorem stepUnexpectedPart_nonterminal (model : String) (ts now : Nat) (st : GeminiState)
    (p : GeminiPart) : ∀ x ∈ (stepUnexpectedPart model ts now st p).2, isTerminal x = false := by
  unfold stepUnexpectedPart
  cases p.functionCall with
  | none => simp
  | some fc => simp [isTerminal]

theorem runUnexpected_nonterminal (model : String) (ts now : Nat) (ps : List GeminiPart) :
    ∀ st : GeminiState, ∀ x ∈ (runUnexpected model ts now st ps).2, isTerminal x = false := by
  induction ps with
  | nil => intro st; simp [runUnexpected]
  | cons p ps ih =>
      intro st
      simp only [runUnexpected]
      intro x hx
      rcases List.mem_append.1 hx with hx | hx
      · exact stepUnexpectedPart_nonterminal model ts now st p x hx
      · exact ih _ x hx

theorem stepChunkBody_nonterminal (model : String) (ts : Nat) (st : GeminiState)
    (c : GeminiChunk) : ∀ x ∈ (stepChunkBody model ts st c).2, isTerminal x = false := by
  unfold stepChunkBody
  cases c.candidate.bind (fun cand => cand.parts) with
  | some ps => exact runParts_nonterminal model ts c.now ps st
  | none =>
      cases truthyStr c.data with
      | some d =>
          intro x hx
          rcases List.mem_singleton.1 hx with rfl
          rfl
      | none => simp

theorem stepChunk_noFinish_nonterminal (model : String) (ts : Nat) (st : GeminiState)
    (c : GeminiChunk) (h : c.candidate.bind (fun cand => cand.finishReason) = none) :
    ∀ x ∈ (stepChunk model ts st c).2, isTerminal x = false := by
  simp only [stepChunk, h]
  exact stepChunkBody_nonterminal model ts st c

theorem runGemini_append (model : String) (ts : Nat) (l1 l2 : List GeminiChunk) :
    ∀ st : GeminiState,
      runGemini model ts st (l1 ++ l2) =
        ((runGemini model ts (runGemini model ts st l1).1 l2).1,
         (runGemini model ts st l1).2 ++ (runGemini model ts (runGemini model ts st l1).1 l2).2) := by
  induction l1 with
  | nil => intro st; simp [runGemini]
  | cons c l1 ih =>
      intro st
      simp only [List.cons_append, runGemini, List.append_eq]
      rw [ih (stepChunk model ts st c).1, List.append_assoc]

theorem runGemini_noFinish_nonterminal (model : String) (ts : Nat)
    (body : List GeminiChunk)
    (hb : ∀ c ∈ body, c.candidate.bind (fun cand => cand.finishReason) = none) :
    ∀ st : GeminiState, ∀ x ∈ (runGemini model ts st body).2, isTerminal x = false := by
  induction body with
  | nil => intro st; simp [runGemini]
  | cons c body ih =>
      intro st
      simp only [runGemini]
      intro x hx
      rcases List.mem_append.1 hx with hx | hx
      · exact stepChunk_noFinish_nonterminal model ts st c (hb c (by simp)) x hx
      · exact ih (fun c2 hc2 => hb c2 (by simp [hc2])) _ x hx

theorem stepChunk_finish_shape (model : String) (ts : Nat) (st : GeminiState)
    (c : GeminiChunk) (fr : GeminiFinish)
    (hf : c.candidate.bind (fun cand => cand.finishReason) = some fr)
    (hm : fr ≠ GeminiFinish.maxTokens) :
    (stepChunk model ts st c).2 =
      ((stepChunkBody model ts st c).2 ++
        (finishUnexpected model ts c fr (stepChunkBody model ts st c).1).2) ++
        [finishDone model ts c
          (finishUnexpected model ts c fr (stepChunkBody model ts st c).1).1] ∧
    ∀ x ∈ (stepChunkBody model ts st c).2 ++
        (finishUnexpected model ts c fr (stepChunkBody model ts st c).1).2,
      isTerminal x = false := by
  constructor
  · simp only [stepChunk, hf, stepChunkFinish, finishMaxTok, if_neg hm, List.append_nil,
      List.append_assoc]
  · intro x hx
    rcases List.mem_append.1 hx with hx | hx
    · exact stepChunkBody_nonterminal model ts st c x hx
    · revert hx
      unfold finishUnexpected
      by_cases hu : fr = GeminiFinish.unexpectedToolCall
      · rw [if_pos hu]
        cases c.candidate.bind (fun cand => cand.parts) with
        | some ps => exact fun hx => runUnexpected_nonterminal model ts c.now ps _ x hx
        | none => simp
      · rw [if_neg hu]
        simp

theorem stepOpenAIChunk_noFinish_nonterminal (ts : Nat) (acc : String) (c : OpenAIChunk)
    (h : truthyStr (c.choice.bind (fun ch => ch.finish_reason)) = none) :
    ∀ x ∈ (stepOpenAIChunk ts acc c).2, isTerminal x = false := by
  simp only [stepOpenAIChunk, h, List.append_nil]
  intro x hx
  rcases List.mem_append.1 hx with hx | hx
  · revert hx
    cases (c.choice.bind (fun ch => ch.delta)).bind (fun d => truthyStr d.content) with
    | none => simp
    | some s =>
        intro hx
        rcases List.mem_singleton.1 hx with rfl
        rfl
  · revert hx
    cases (c.choice.bind (fun ch => ch.delta)).bind (fun d => d.tool_calls) with
    | none => simp
    | some tcs =>
        intro hx
        rcases List.mem_map.1 hx with ⟨tc, _, rfl⟩
        rfl

theorem stepOpenAIChunk_finish_shape (ts : Nat) (acc : String) (c : OpenAIChunk)
    (fr : String)
    (hf : truthyStr (c.choice.bind (fun ch => ch.finish_reason)) = some fr) :
    ∃ front : List StreamChunk,
      (stepOpenAIChunk ts acc c).2 =
        front ++ [StreamChunk.done c.id c.model ts fr (c.usage.map mapOpenAIUsage)] ∧
      ∀ x ∈ front, isTerminal x = false := by
  simp only [stepOpenAIChunk, hf]
  refine ⟨_, rfl, ?_⟩
  intro x hx
  rcases List.mem_append.1 hx with hx | hx
  · revert hx
    cases (c.choice.bind (fun ch => ch.delta)).bind (fun d => truthyStr d.content) with
    | none => simp
    | some s =>
        intro hx
        rcases List.mem_singleton.1 hx with rfl
        rfl
  · revert hx
    cases (c.choice.bind (fun ch => ch.delta)).bind (fun d => d.tool_calls) with
    | none => simp
    | some tcs =>
        intro hx
        rcases List.mem_map.1 hx with ⟨tc, _, rfl⟩
        rfl

theorem runOpenAI_append (ts : Nat) (l1 l2 : List OpenAIChunk) :
    ∀ acc : String,
      runOpenAI ts acc (l1 ++ l2) =
        ((runOpenAI ts (runOpenAI ts acc l1).1 l2).1,
         (runOpenAI ts acc l1).2 ++ (runOpenAI ts (runOpenAI ts acc l1).1 l2).2) := by
  induction l1 with
  | nil => intro acc; simp [runOpenAI]
  | cons c l1 ih =>
      intro acc
      simp only [List.cons_append, runOpenAI, List.append_eq]
      rw [ih (stepOpenAIChunk ts acc c).1, List.append_assoc]

theorem runOpenAI_noFinish_nonterminal (ts : Nat) (body : List OpenAIChunk)
    (hb : ∀ c ∈ body, truthyStr (c.choice.bind (fun ch => ch.finish_reason)) = none) :
    ∀ acc : String, ∀ x ∈ (runOpenAI ts acc body).2, isTerminal x = false := by
  induction body with
  | nil => intro acc; simp [runOpenAI]
  | cons c body ih =>
      intro acc
      simp only [runOpenAI]
      intro x hx
      rcases List.mem_append.1 hx with hx | hx
      · exact stepOpenAIChunk_noFinish_nonterminal ts acc c (hb c (by simp)) x hx
      · exact ih (fun c2 hc2 => hb c2 (by simp [hc2])) _ x hx

theorem dropLast_append_singleton {α : Type} (l : List α) (a : α) :
    (l ++ [a]).dropLast = l := by
  simp

theorem getLast?_append_singleton {α : Type} (l : List α) (a : α) :
    (l ++ [a]).getLast? = some a := by
  simp [List.getLast?_append]

/-- C2 (corrected; the claim as stated fails, see `c2_counterexample`): for
every vendor stream in which only the final vendor chunk carries a finish
reason and — for Gemini — that reason is not `MAX_TOKENS`, and whose
iteration raises no exception, the adapter emits exactly one terminal chunk,
it is a `done`, and it is the last chunk emitted: everything before the last
chunk is non-terminal and the last chunk is a `done`. -/
theorem c2_single_terminal (model : String) (ts tsCatch : Nat) :
    (∀ (body : List GeminiChunk) (last : GeminiChunk) (fr : GeminiFinish),
      (∀ c ∈ body, c.candidate.bind (fun cand => cand.finishReason) = none) →
      last.candidate.bind (fun cand => cand.finishReason) = some fr →
      fr ≠ GeminiFinish.maxTokens →
      (∀ x ∈ (geminiChatStream model ts tsCatch (.ok (body ++ [last], none))).dropLast,
        isTerminal x = false) ∧
      (geminiChatStream model ts tsCatch
        (.ok (body ++ [last], none))).getLast?.map isDoneChunk = some true) ∧
    (∀ (body : List OpenAIChunk) (last : OpenAIChunk) (fr : String),
      (∀ c ∈ body, truthyStr (c.choice.bind (fun ch => ch.finish_reason)) = none) →
      truthyStr (last.choice.bind (fun ch => ch.finish_reason)) = some fr →
      (∀ x ∈ (openaiEmittedChunks model ts (body ++ [last]) none).dropLast,
        isTerminal x = false) ∧
      (openaiEmittedChunks model ts (body ++ [last]) none).getLast?.map isDoneChunk
        = some true) := by
  constructor
  · intro body last fr hb hf hm
    have hout : geminiChatStream model ts tsCatch (.ok (body ++ [last], none)) =
        (runGemini model ts initGeminiState (body ++ [last])).2 := by
      simp [geminiChatStream]
    have happ := congrArg Prod.snd (runGemini_append model ts body [last] initGeminiState)
    have hsing : (runGemini model ts (runGemini model ts initGeminiState body).1 [last]).2 =
        (stepChunk model ts (runGemini model ts initGeminiState body).1 last).2 := by
      simp [runGemini]
    have hshape := stepChunk_finish_shape model ts
      (runGemini model ts initGeminiState body).1 last fr hf hm
    have hfull : geminiChatStream model ts tsCatch (.ok (body ++ [last], none)) =
        ((runGemini model ts initGeminiState body).2 ++
          ((stepChunkBody model ts (runGemini model ts initGeminiState body).1 last).2 ++
            (finishUnexpected model ts last fr
              (stepChunkBody model ts (runGemini model ts initGeminiState body).1 last).1).2)) ++
          [finishDone model ts last
            (finishUnexpected model ts last fr
              (stepChunkBody model ts (runGemini model ts initGeminiState body).1 last).1).1] := by
      rw [hout, happ, hsing, hshape.1]
      simp [List.append_assoc]
    constructor
    · rw [hfull, dropLast_append_singleton]
      intro x hx
      rcases List.mem_append.1 hx with hx | hx
      · exact runGemini_noFinish_nonterminal model ts body hb initGeminiState x hx
      · exact hshape.2 x (by simpa [List.append_assoc] using hx)
    · rw [hfull, getLast?_append_singleton]
      rfl
  · intro body last fr hb hf
    have happ := congrArg Prod.snd (runOpenAI_append ts body [last] "")
    have hsing : (runOpenAI ts (runOpenAI ts "" body).1 [last]).2 =
        (stepOpenAIChunk ts (runOpenAI ts "" body).1 last).2 := by
      simp [runOpenAI]
    obtain ⟨front, hfr, hfront⟩ :=
      stepOpenAIChunk_finish_shape ts (runOpenAI ts "" body).1 last fr hf
    have hfull : openaiEmittedChunks model ts (body ++ [last]) none =
        ((runOpenAI ts "" body).2 ++ front) ++
          [StreamChunk.done last.id last.model ts fr (last.usage.map mapOpenAIUsage)] := by
      simp only [openaiEmittedChunks, List.append_nil]
      rw [happ, hsing, hfr, List.append_assoc]
    constructor
    · rw [hfull, dropLast_append_singleton]
      intro x hx
      rcases List.mem_append.1 hx with hx | hx
      · exact runOpenAI_noFinish_nonterminal ts body hb "" x hx
      · exact hfront x hx
    · rw [hfull, getLast?_append_singleton]
      rfl

theorem c2_counterexample :
    processGeminiChunks "m" 0 [⟨some ⟨none, some GeminiFinish.maxTokens⟩, none, none, 0⟩] =
      [StreamChunk.error "gemini-0" "m" 0 ⟨maxTokensMsg, none⟩,
       StreamChunk.done "gemini-1" "m" 0 "stop" none] ∧
    (processGeminiChunks "m" 0
      [⟨some ⟨none, some GeminiFinish.maxTokens⟩, none, none, 0⟩]).countP isTerminal = 2 := by
  exact ⟨by decide, by decide⟩

theorem c2_single_terminal_witness :
    ((∀ x ∈ (geminiChatStream "m" 0 0
        (.ok ([⟨some ⟨none, some GeminiFinish.stop⟩, none, none, 0⟩], none))).dropLast,
      isTerminal x = false) ∧
    (geminiChatStream "m" 0 0
        (.ok ([⟨some ⟨none, some GeminiFinish.stop⟩, none, none, 0⟩], none))).getLast?.map
      isDoneChunk = some true) ∧
    ((∀ x ∈ (openaiEmittedChunks "m" 0
        [⟨"cid", "om", some ⟨none, some "stop"⟩, none, 0⟩] none).dropLast,
      isTerminal x = false) ∧
    (openaiEmittedChunks "m" 0
        [⟨"cid", "om", some ⟨none, some "stop"⟩, none, 0⟩] none).getLast?.map isDoneChunk
      = some true) := by
  constructor
  · exact (c2_single_terminal "m" 0 0).1 []
      ⟨some ⟨none, some GeminiFinish.stop⟩, none, none, 0⟩ GeminiFinish.stop
      (by simp) rfl (by decide)
  · exact (c2_single_terminal "m" 0 0).2 []
      ⟨"cid", "om", some ⟨none, some "stop"⟩, none, 0⟩ "stop" (by simp) rfl

/-! ### Claim C9: the Gemini done chunk's finish reason -/

/-- `tool_call` chunks. -/
def isToolCallChunk : StreamChunk → Bool
  | .toolCall _ _ _ _ _ => true
  | _ => false

/-- Whether a chunk list contains a `tool_call` chunk. -/
def containsTc (l : List StreamChunk) : Bool := l.any isToolCallChunk

/-- One chunk is consistent with the tool-call history: a `done` chunk's
finish reason is `tool_calls` when a tool call has been seen, else `stop`. -/
def chunkDoneOk (seen : Bool) : StreamChunk → Prop
  | .done _ _ _ fr _ => fr = if seen then "tool_calls" else "stop"
  | _ => True

/-- Every `done` chunk of the list carries finish reason `tool_calls`
exactly when a `tool_call` chunk precedes it (`seen` records whether one
was already emitted before the list). -/
def doneOk : Bool → List StreamChunk → Prop
  | _, [] => True
  | seen, c :: rest => chunkDoneOk seen c ∧ doneOk (seen || isToolCallChunk c) rest

theorem containsTc_append (l1 l2 : List StreamChunk) :
    containsTc (l1 ++ l2) = (containsTc l1 || containsTc l2) := by
  simp [containsTc, List.any_append]

theorem doneOk_append (seen : Bool) (l1 l2 : List StreamChunk) :
    doneOk seen (l1 ++ l2) ↔ doneOk seen l1 ∧ doneOk (seen || containsTc l1) l2 := by
  induction l1 generalizing seen with
  | nil => simp [doneOk, containsTc]
  | cons c l1 ih =>
      simp [doneOk, containsTc, List.any_cons, ih, Bool.or_assoc, and_assoc]

theorem chunkDoneOk_of_notDone {c : StreamChunk} (h : isDoneChunk c = false) (seen : Bool) :
    chunkDoneOk seen c := by
  cases c <;> simp_all [isDoneChunk, chunkDoneOk]

theorem doneOk_of_noDone {l : List StreamChunk} (h : ∀ c ∈ l, isDoneChunk c = false) :
    ∀ seen : Bool, doneOk seen l := by
  induction l with
  | nil => intro seen; trivial
  | cons c l ih =>
      intro seen
      exact ⟨chunkDoneOk_of_notDone (h c (by simp)) seen,
             ih (fun x hx => h x (by simp [hx])) _⟩

/-- The tool-call/done bookkeeping one processing step must respect: the map
becomes (or stays) non-empty exactly when it was non-empty or a `tool_call`
chunk was emitted, and the emitted chunks satisfy `doneOk` for any `seen`
consistent with the starting map. -/
def StepTc (st st' : GeminiState) (out : List StreamChunk) : Prop :=
  st'.toolCallMap.isEmpty = (st.toolCallMap.isEmpty && !containsTc out) ∧
  ∀ seen : Bool, st.toolCallMap.isEmpty = !seen → doneOk seen out

theorem StepTc_comp {st st1 st2 : GeminiState} {o1 o2 : List StreamChunk}
    (h1 : StepTc st st1 o1) (h2 : StepTc st1 st2 o2) : StepTc st st2 (o1 ++ o2) := by
  constructor
  · rw [h2.1, h1.1, containsTc_append]
    cases st.toolCallMap.isEmpty <;> cases containsTc o1 <;> cases containsTc o2 <;> rfl
  · intro seen h
    rw [doneOk_append]
    refine ⟨h1.2 seen h, h2.2 (seen || containsTc o1) ?_⟩
    rw [h1.1, h]
    cases seen <;> cases containsTc o1 <;> rfl

theorem StepTc_no_effect {st st' : GeminiState} {out : List StreamChunk}
    (hm : st'.toolCallMap = st.toolCallMap) (htc : containsTc out = false)
    (hd : ∀ c ∈ out, isDoneChunk c = false) : StepTc st st' out := by
  constructor
  · rw [hm, htc]
    cases st.toolCallMap.isEmpty <;> rfl
  · intro seen _
    exact doneOk_of_noDone hd seen

theorem stepPartText_tc (model : String) (ts : Nat) (st : GeminiState) (p : GeminiPart) :
    StepTc st (stepPartText model ts st p).1 (stepPartText model ts st p).2 := by
  unfold stepPartText
  cases truthyStr p.text with
  | none => exact StepTc_no_effect rfl rfl (by simp)
  | some t =>
      cases hb : p.thought <;>
        refine StepTc_no_effect rfl rfl ?_ <;>
          (intro x hx; rcases List.mem_singleton.1 hx with rfl; rfl)

theorem stepPartCall_tc (model : String) (ts now : Nat) (st : GeminiState) (p : GeminiPart) :
    StepTc st (stepPartCall model ts now st p).1 (stepPartCall model ts now st p).2 := by
  unfold stepPartCall
  cases p.functionCall with
  | none => exact StepTc_no_effect rfl rfl (by simp)
  | some fc =>
      cases h : lookupKey (geminiToolCallId fc now st.nextToolIndex) st.toolCallMap with
      | none =>
          constructor
          · simp [h, setKey_isEmpty, containsTc, isToolCallChunk]
          · intro seen _
            simp only [h]
            exact doneOk_of_noDone (by intro x hx; rcases List.mem_singleton.1 hx with rfl; rfl)
              seen
      | some d0 =>
          constructor
          · simp [h, setKey_isEmpty, containsTc, isToolCallChunk]
          · intro seen _
            simp only [h]
            exact doneOk_of_noDone (by intro x hx; rcases List.mem_singleton.1 hx with rfl; rfl)
              seen

theorem stepPart_tc (model : String) (ts now : Nat) (st : GeminiState) (p : GeminiPart) :
    StepTc st (stepPart model ts now st p).1 (stepPart model ts now st p).2 := by
  simp only [stepPart]
  exact StepTc_comp (stepPartText_tc model ts st p) (stepPartCall_tc model ts now _ p)

theorem runParts_tc (model : String) (ts now : Nat) (ps : List GeminiPart) :
    ∀ st : GeminiState, StepTc st (runParts model ts now st ps).1 (runParts model ts now st ps).2 := by
  induction ps with
  | nil =>
      intro st
      simp only [runParts]
      exact StepTc_no_effect rfl rfl (by simp)
  | cons p ps ih =>
      intro st
      simp only [runParts]
      exact StepTc_comp (stepPart_tc model ts now st p) (ih _)

theorem stepUnexpectedPart_tc (model : String) (ts now : Nat) (st : GeminiState)
    (p : GeminiPart) :
    StepTc st (stepUnexpectedPart model ts now st p).1 (stepUnexpectedPart model ts now st p).2 := by
  unfold stepUnexpectedPart
  cases p.functionCall with
  | none => exact StepTc_no_effect rfl rfl (by simp)
  | some fc =>
      constructor
      · simp [setKey_isEmpty, containsTc, isToolCallChunk]
      · intro seen _
        exact doneOk_of_noDone (by intro x hx; rcases List.mem_singleton.1 hx with rfl; rfl)
          seen

theorem runUnexpected_tc (model : String) (ts now : Nat) (ps : List GeminiPart) :
    ∀ st : GeminiState,
      StepTc st (runUnexpected model ts now st ps).1 (runUnexpected model ts now st ps).2 := by
  induction ps with
  | nil =>
      intro st
      simp only [runUnexpected]
      exact StepTc_no_effect rfl rfl (by simp)
  | cons p ps ih =>
      intro st
      simp only [runUnexpected]
      exact StepTc_comp (stepUnexpectedPart_tc model ts now st p) (ih _)

theorem stepChunkBody_tc (model : String) (ts : Nat) (st : GeminiState) (c : GeminiChunk) :
    StepTc st (stepChunkBody model ts st c).1 (stepChunkBody model ts st c).2 := by
  unfold stepChunkBody
  cases c.candidate.bind (fun cand => cand.parts) with
  | some ps => exact runParts_tc model ts c.now ps st
  | none =>
      cases truthyStr c.data with
      | some d =>
          exact StepTc_no_effect rfl rfl
            (by intro x hx; rcases List.mem_singleton.1 hx with rfl; rfl)
      | none => exact StepTc_no_effect rfl rfl (by simp)

theorem finishUnexpected_tc (model : String) (ts : Nat) (c : GeminiChunk)
    (fr : GeminiFinish) (st1 : GeminiState) :
    StepTc st1 (finishUnexpected model ts c fr st1).1 (finishUnexpected model ts c fr st1).2 := by
  unfold finishUnexpected
  by_cases hu : fr = GeminiFinish.unexpectedToolCall
  · rw [if_pos hu]
    cases c.candidate.bind (fun cand => cand.parts) with
    | some ps => exact runUnexpected_tc model ts c.now ps st1
    | none => exact StepTc_no_effect rfl rfl (by simp)
  · rw [if_neg hu]
    exact StepTc_no_effect rfl rfl (by simp)

theorem finishMaxTok_tc (model : String) (ts : Nat) (fr : GeminiFinish) (st2 : GeminiState) :
    StepTc st2 (finishMaxTok model ts fr st2).1 (finishMaxTok model ts fr st2).2 := by
  unfold finishMaxTok
  by_cases hm : fr = GeminiFinish.maxTokens
  · rw [if_pos hm]
    exact StepTc_no_effect rfl rfl
      (by intro x hx; rcases List.mem_singleton.1 hx with rfl; rfl)
  · rw [if_neg hm]
    exact StepTc_no_effect rfl rfl (by simp)

theorem StepTc_done (model : String) (ts : Nat) (c : GeminiChunk) (st3 : GeminiState) :
    StepTc st3 { st3 with idCtr := st3.idCtr + 1 } [finishDone model ts c st3] := by
  constructor
  · simp [containsTc, isToolCallChunk, finishDone]
  · intro seen h
    refine ⟨?_, trivial⟩
    simp only [finishDone, chunkDoneOk]
    rw [h]
    cases seen <;> rfl

theorem stepChunkFinish_tc (model : String) (ts : Nat) (c : GeminiChunk)
    (fr : GeminiFinish) (st1 : GeminiState) :
    StepTc st1 (stepChunkFinish model ts c fr st1).1 (stepChunkFinish model ts c fr st1).2 := by
  simp only [stepChunkFinish]
  exact StepTc_comp
    (StepTc_comp (finishUnexpected_tc model ts c fr st1) (finishMaxTok_tc model ts fr _))
    (StepTc_done model ts c _)

theorem stepChunk_tc (model : String) (ts : Nat) (st : GeminiState) (c : GeminiChunk) :
    StepTc st (stepChunk model ts st c).1 (stepChunk model ts st c).2 := by
  simp only [stepChunk]
  cases c.candidate.bind (fun cand => cand.finishReason) with
  | none => exact stepChunkBody_tc model ts st c
  | some fr =>
      exact StepTc_comp (stepChunkBody_tc model ts st c) (stepChunkFinish_tc model ts c fr _)

theorem runGemini_tc (model : String) (ts : Nat) (cs : List GeminiChunk) :
    ∀ st : GeminiState, StepTc st (runGemini model ts st cs).1 (runGemini model ts st cs).2 := by
  induction cs with
  | nil =>
      intro st
      simp only [runGemini]
      exact StepTc_no_effect rfl rfl (by simp)
  | cons c cs ih =>
      intro st
      simp only [runGemini]
      exact StepTc_comp (stepChunk_tc model ts st c) (ih _)

theorem processGeminiChunks_doneOk (model : String) (ts : Nat) (cs : List GeminiChunk) :
    doneOk false (processGeminiChunks model ts cs) :=
  (runGemini_tc model ts cs initGeminiState).2 false rfl

/-- C9: every `done` chunk the Gemini adapter emits carries finish reason
`tool_calls` when a `tool_call` chunk was emitted (i.e. accumulated) earlier
in the same stream and `stop` otherwise — so it is always exactly `stop` or
`tool_calls`, and vendor reasons such as max-tokens or content-filter are
never surfaced as canonical `length`/`content_filter`; a `MAX_TOKENS` vendor
finish instead yields a separate `error` chunk right before the `done`. -/
theorem c9_gemini_finish_reasons (model : String) (ts : Nat) :
    (∀ (cs : List GeminiChunk) (pre post : List StreamChunk) (idv mo : String)
        (t : Nat) (fr : String) (u : Option UsageInfo),
      processGeminiChunks model ts cs = pre ++ StreamChunk.done idv mo t fr u :: post →
      fr = (if containsTc pre then "tool_calls" else "stop")) ∧
    (∀ (st : GeminiState) (c : GeminiChunk),
      c.candidate.bind (fun cand => cand.finishReason) = some GeminiFinish.maxTokens →
      (stepChunk model ts st c).2 =
        (stepChunkBody model ts st c).2 ++
          [StreamChunk.error (generateId "gemini" (stepChunkBody model ts st c).1.idCtr)
             model ts ⟨maxTokensMsg, none⟩,
           finishDone model ts c
             { (stepChunkBody model ts st c).1 with
                 idCtr := (stepChunkBody model ts st c).1.idCtr + 1 }]) := by
  constructor
  · intro cs pre post idv mo t fr u hdec
    have h := processGeminiChunks_doneOk model ts cs
    rw [hdec, doneOk_append] at h
    have h2 : chunkDoneOk (false || containsTc pre) (StreamChunk.done idv mo t fr u) :=
      h.2.1
    simpa [chunkDoneOk] using h2
  · intro st c hf
    simp only [stepChunk, hf, stepChunkFinish, finishUnexpected, finishMaxTok,
      if_neg (by decide : ¬ (GeminiFinish.maxTokens = GeminiFinish.unexpectedToolCall)),
      if_pos rfl]
    rfl

theorem c9_gemini_finish_reasons_witness :
    ("stop" : String) = (if containsTc [] then "tool_calls" else "stop") ∧
    (stepChunk "m" 0 initGeminiState
        ⟨some ⟨none, some GeminiFinish.maxTokens⟩, none, none, 0⟩).2 =
      (stepChunkBody "m" 0 initGeminiState
        ⟨some ⟨none, some GeminiFinish.maxTokens⟩, none, none, 0⟩).2 ++
        [StreamChunk.error (generateId "gemini"
            (stepChunkBody "m" 0 initGeminiState
              ⟨some ⟨none, some GeminiFinish.maxTokens⟩, none, none, 0⟩).1.idCtr)
           "m" 0 ⟨maxTokensMsg, none⟩,
         finishDone "m" 0 ⟨some ⟨none, some GeminiFinish.maxTokens⟩, none, none, 0⟩
           { (stepChunkBody "m" 0 initGeminiState
                ⟨some ⟨none, some GeminiFinish.maxTokens⟩, none, none, 0⟩).1 with
               idCtr := (stepChunkBody "m" 0 initGeminiState
                ⟨some ⟨none, some GeminiFinish.maxTokens⟩, none, none, 0⟩).1.idCtr + 1 }] := by
  constructor
  · exact (c9_gemini_finish_reasons "m" 0).1
      [⟨some ⟨none, some GeminiFinish.stop⟩, none, none, 0⟩] [] []
      "gemini-0" "m" 0 "stop" none (by decide)
  · exact (c9_gemini_finish_reasons "m" 0).2 initGeminiState
      ⟨some ⟨none, some GeminiFinish.maxTokens⟩, none, none, 0⟩ rfl

/-! ### Claim C4: shallow key-wise merge, last write wins -/

/-- The value the LAST entry with key `k` carries, if any (the JavaScript
"last write" among a sequence of property assignments). -/
def lookupLast {α β : Type} [DecidableEq α] (k : α) : List (α × β) → Option β
  | [] => none
  | (k', v) :: rest =>
      match lookupLast k rest with
      | some r => some r
      | none => if k' = k then some v else none

theorem lookupKey_foldl_setKey {α β : Type} [DecidableEq α] (k : α)
    (l : List (α × β)) :
    ∀ acc : List (α × β),
      lookupKey k (l.foldl (fun m kv => setKey m kv.1 kv.2) acc) =
        match lookupLast k l with
        | some r => some r
        | none => lookupKey k acc := by
  induction l with
  | nil => intro acc; simp [lookupLast]
  | cons e l ih =>
      intro acc
      obtain ⟨k', v'⟩ := e
      rw [List.foldl_cons, ih (setKey acc k' v')]
      cases h : lookupLast k l with
      | some r => simp [lookupLast, h]
      | none =>
          simp only [lookupLast, h]
          rw [lookupKey_setKey]
          by_cases hk : k' = k <;> simp [hk]

theorem lookupKey_assignAll {k : String} {l : List (String × Json)} :
    lookupKey k (assignAll l) = lookupLast k l := by
  rw [assignAll, lookupKey_foldl_setKey]
  cases h : lookupLast k l <;> simp [lookupKey]

theorem lookupLast_append {α β : Type} [DecidableEq α] (k : α) (A B : List (α × β)) :
    lookupLast k (A ++ B) =
      match lookupLast k B with
      | some r => some r
      | none => lookupLast k A := by
  induction A with
  | nil => cases h : lookupLast k B <;> simp [lookupLast, h]
  | cons e A ih =>
      obtain ⟨k', v'⟩ := e
      simp only [List.cons_append, lookupLast, List.append_eq]
      rw [ih]
      cases h : lookupLast k B <;> cases h2 : lookupLast k A <;> simp [h, h2]

/-- C4: on the Gemini adapter's merge of two tool-call argument fragments
that both parse as JSON objects, the stored arguments become the stringified
shallow key-wise merge, and per key the merged object holds the new
fragment's value when it has one, else the old fragment's — last write wins.
(The concrete instances `{a:1}+{b:2} = {a:1,b:2}` and `{a:1}+{a:2} = {a:2}`
are evaluated in the witness.) -/
theorem c4_merge_last_write_wins (s : String) (fa : Json)
    (A B : List (String × Json))
    (h1 : parseJson s = some (.obj A)) (h2 : newArgsParsed fa = some (.obj B)) :
    mergeToolArgs s fa = stringifyJson (.obj (assignAll (A ++ B))) ∧
    ∀ k : String,
      lookupKey k (assignAll (A ++ B)) =
        match lookupLast k B with
        | some v => some v
        | none => lookupLast k A := by
  constructor
  · simp [mergeToolArgs, h1, h2, spreadMerge, spreadEntries]
  · intro k
    rw [lookupKey_assignAll, lookupLast_append]
    cases lookupLast k B <;> rfl

theorem c4_merge_last_write_wins_witness :
    mergeToolArgs "\x7b\"a\":1\x7d" (Json.obj [("b", Json.num 2)]) =
      "\x7b\"a\":1,\"b\":2\x7d" ∧
    mergeToolArgs "\x7b\"a\":1\x7d" (Json.obj [("a", Json.num 2)]) = "\x7b\"a\":2\x7d" ∧
    lookupKey "a" (assignAll ([("a", Json.num 1)] ++ [("a", Json.num 2)])) =
      some (Json.num 2) := by
  refine ⟨?_, ?_, ?_⟩
  · rw [(c4_merge_last_write_wins "\x7b\"a\":1\x7d" (Json.obj [("b", Json.num 2)])
      [("a", Json.num 1)] [("b", Json.num 2)] rfl rfl).1]
    rfl
  · rw [(c4_merge_last_write_wins "\x7b\"a\":1\x7d" (Json.obj [("a", Json.num 2)])
      [("a", Json.num 1)] [("a", Json.num 2)] rfl rfl).1]
    rfl
  · exact ((c4_merge_last_write_wins "\x7b\"a\":1\x7d" (Json.obj [("a", Json.num 2)])
      [("a", Json.num 1)] [("a", Json.num 2)] rfl rfl).2 "a").trans rfl

/-! ### Claims C3 and C10: error conversion; chatCompletionStream -/

/-- `error` chunks. -/
def isErrorChunk : StreamChunk → Bool
  | .error _ _ _ _ => true
  | _ => false

/-- C3 counterexample: when opening the vendor stream throws (the `create`
call sits outside `chatStream`'s `try`), the OpenAI adapter does NOT convert
the failure into an error chunk — no chunk list is produced at all; the
exception propagates to the caller. -/
theorem c3_counterexample :
    ¬ ∃ out : List StreamChunk,
        openaiChatStream "gpt-3.5-turbo" 0
          (Except.error ⟨true, "connection failed", none⟩) = Except.ok out := by
  rintro ⟨out, h⟩
  simp [openaiChatStream] at h

/-- C3 (corrected; see `c3_counterexample`): the Gemini adapter converts
every vendor failure — while opening the stream and while iterating it —
into exactly one trailing canonical `error` chunk and throws nothing; the
OpenAI adapter does the same for failures while iterating, but a failure
while opening the stream propagates as an exception. -/
theorem c3_error_conversion (model : String) (ts tsCatch : Nat) (e : JsError)
    (chunks : List GeminiChunk) (ochunks : List OpenAIChunk) :
    (geminiChatStream model ts tsCatch (Except.error e) =
      [StreamChunk.error (generateId "gemini" 0) model tsCatch
        ⟨geminiCatchMessage e, none⟩]) ∧
    ((geminiChatStream model ts tsCatch (Except.ok (chunks, some e))).getLast? =
      some (StreamChunk.error
        (generateId "gemini" (runGemini model ts initGeminiState chunks).1.idCtr)
        model tsCatch ⟨geminiCatchMessage e, none⟩)) ∧
    ((geminiChatStream model ts tsCatch (Except.ok (chunks, some e))).countP isErrorChunk =
      (runGemini model ts initGeminiState chunks).2.countP isErrorChunk + 1) ∧
    (openaiChatStream model ts (Except.ok (ochunks, some e)) =
      Except.ok ((runOpenAI ts "" ochunks).2 ++
        [StreamChunk.error (baseGenerateId 0) model ts
          ⟨openaiCatchMessage e, e.code⟩])) := by
  refine ⟨rfl, ?_, ?_, ?_⟩
  · simp only [geminiChatStream]
    exact getLast?_append_singleton _ _
  · simp only [geminiChatStream]
    rw [List.countP_append]
    rfl
  · simp [openaiChatStream, openaiEmittedChunks]

/-- C10: `chatCompletionStream` yields a chunk only for vendor chunks whose
`delta.content` is truthy (non-empty), and each yielded chunk carries its
own vendor chunk's `finish_reason`; hence on a vendor stream where the
finish reason only ever arrives on chunks without content (the usual
terminal chunk), no yielded chunk carries a finish reason at all — the
caller observes no completion signal. -/
theorem c10_completion_stream (chunks : List OpenAIChunk) :
    (∀ o ∈ chatCompletionStream chunks, ∃ c ∈ chunks,
        (c.choice.bind (fun ch => ch.delta)).bind (fun d => truthyStr d.content)
          = some o.content ∧
        o.finishReason = c.choice.bind (fun ch => ch.finish_reason)) ∧
    ((∀ c ∈ chunks, (c.choice.bind (fun ch => ch.finish_reason)).isSome →
        (c.choice.bind (fun ch => ch.delta)).bind (fun d => truthyStr d.content) = none) →
      ∀ o ∈ chatCompletionStream chunks, o.finishReason = none) := by
  have hmem : ∀ o ∈ chatCompletionStream chunks, ∃ c ∈ chunks,
      (c.choice.bind (fun ch => ch.delta)).bind (fun d => truthyStr d.content)
        = some o.content ∧
      o.finishReason = c.choice.bind (fun ch => ch.finish_reason) := by
    intro o ho
    obtain ⟨c, hc, hf⟩ := List.mem_filterMap.1 ho
    refine ⟨c, hc, ?_⟩
    revert hf
    unfold chatCompletionStream at *
    cases hcon : (c.choice.bind (fun ch => ch.delta)).bind (fun d => truthyStr d.content) with
    | none => intro hf; simp [hcon] at hf
    | some s =>
        intro hf
        simp only [hcon, Option.some.injEq] at hf
        subst hf
        exact ⟨rfl, rfl⟩
  refine ⟨hmem, ?_⟩
  intro h o ho
  obtain ⟨c, hc, hcon, hfin⟩ := hmem o ho
  cases hx : c.choice.bind (fun ch => ch.finish_reason) with
  | none => rw [hfin, hx]
  | some fr =>
      have := h c hc (by simp [hx])
      rw [this] at hcon
      exact absurd hcon (by simp)

theorem c10_completion_stream_witness :
    (CompletionChunk.mk "i1" "m" "hi" none none).finishReason = none := by
  exact (c10_completion_stream
      [⟨"i1", "m", some ⟨some ⟨some "hi", none, none⟩, none⟩, none, 0⟩,
       ⟨"i2", "m", some ⟨some ⟨none, none, none⟩, some "stop"⟩, none, 0⟩]).2
    (by decide) ⟨"i1", "m", "hi", none, none⟩ (by decide)

theorem c1_content_accumulation_witness :
    ("Hello" : String) =
      deltasConcat [StreamChunk.content "gemini-0" "m" 0 "He" "He"] ++ "llo" ∧
    ("4" : String) = deltasConcat ([] : List StreamChunk) ++ "4" := by
  constructor
  · exact (c1_content_accumulation "m" 0 0
      (Except.ok
        ([⟨some ⟨some [⟨some "He", false, none⟩, ⟨some "llo", false, none⟩], none⟩,
           none, none, 0⟩], none))
      "m" 0 [] none
      [StreamChunk.content "gemini-0" "m" 0 "He" "He"] [] [] []
      "gemini-1" "m" "x" "y" 0 0 "llo" "Hello" "d" "t").1 (by decide)
  · exact (c1_content_accumulation "m" 0 0 (Except.error ⟨true, "e", none⟩)
      "m" 7 [⟨"cid", "om", some ⟨some ⟨some "4", none, none⟩, none⟩, none, 0⟩] none
      [] [] [] [] "a" "b" "cid" "om" 0 7 "d" "t" "4" "4").2 (by decide)

/-! ### Claim C6: the demo loop's iteration bound -/

theorem demoLoopFuel_le (respond : List DemoMsg → List StreamChunk)
    (runTool : DemoToolCall → String) :
    ∀ (fuel : Nat) (msgs : List DemoMsg) (rounds : Nat),
      (demoLoopFuel respond runTool fuel msgs rounds).1 ≤ rounds + fuel := by
  intro fuel
  induction fuel with
  | zero => intro msgs rounds; simp [demoLoopFuel]
  | succ fuel ih =>
      intro msgs rounds
      simp only [demoLoopFuel]
      by_cases h : (demoRound (respond msgs)).2.isEmpty
      · simp only [h, if_pos]
        omega
      · rw [if_neg h]
        have := ih ((msgs ++ [assistantMsg (demoRound (respond msgs)).1
          (demoRound (respond msgs)).2]) ++
          (demoRound (respond msgs)).2.map
            (fun call => toolResultMsg (runTool call) call)) (rounds + 1)
        omega

theorem demoLoopFuel_always (respond : List DemoMsg → List StreamChunk)
    (runTool : DemoToolCall → String)
    (h : ∀ msgs : List DemoMsg, (demoRound (respond msgs)).2 ≠ []) :
    ∀ (fuel : Nat) (msgs : List DemoMsg) (rounds : Nat),
      (demoLoopFuel respond runTool fuel msgs rounds).1 = rounds + fuel := by
  intro fuel
  induction fuel with
  | zero => intro msgs rounds; simp [demoLoopFuel]
  | succ fuel ih =>
      intro msgs rounds
      simp only [demoLoopFuel]
      have hne : (demoRound (respond msgs)).2.isEmpty = false := by
        cases he : (demoRound (respond msgs)).2 with
        | nil => exact absurd he (h msgs)
        | cons a l => rfl
      rw [hne]
      simp only [Bool.false_eq_true, if_false]
      rw [ih _ (rounds + 1)]
      omega

/-- C6: the demo's agent loop (`src/unnamed/part_000`) performs at most
`maxIterations` tool-execution rounds, and when the model requests a tool
call on every round it terminates normally after exactly `maxIterations`
rounds (the loop is total by construction — it is structural recursion on
the iteration budget — so no infinite loop and no error). With
`maxIterations = 1` this is exactly one round (see the witness). Tool
execution is modelled as a total function: the demo's `calculate` catches
its own errors. -/
theorem c6_iteration_bound (respond : List DemoMsg → List StreamChunk)
    (runTool : DemoToolCall → String) (maxIterations : Nat) (messages : List DemoMsg) :
    (demoRun respond runTool maxIterations messages).1 ≤ maxIterations ∧
    ((∀ msgs : List DemoMsg, (demoRound (respond msgs)).2 ≠ []) →
      (demoRun respond runTool maxIterations messages).1 = maxIterations) := by
  constructor
  · have := demoLoopFuel_le respond runTool maxIterations messages 0
    simpa [demoRun] using this
  · intro h
    have := demoLoopFuel_always respond runTool h maxIterations messages 0
    simpa [demoRun] using this

theorem c6_iteration_bound_witness :
    (demoRun
      (fun _ => [StreamChunk.toolCall "x" "m" 0 ⟨"call_1", "calc", "\x7b\x7d"⟩ 0,
                 StreamChunk.done "x" "m" 0 "tool_calls" none])
      (fun _ => "4") 1 []).1 = 1 := by
  exact (c6_iteration_bound
      (fun _ => [StreamChunk.toolCall "x" "m" 0 ⟨"call_1", "calc", "\x7b\x7d"⟩ 0,
                 StreamChunk.done "x" "m" 0 "tool_calls" none])
      (fun _ => "4") 1 []).2 (fun msgs => by decide)

/-! ### Claim C7: SSE framing and the [DONE] sentinel -/

theorem chunkToJson_obj (c : StreamChunk) : ∃ kvs, chunkToJson c = Json.obj kvs := by
  cases c <;> exact ⟨_, rfl⟩

theorem encode_starts_lbrace (c : StreamChunk) :
    ∃ rest, (encodeStreamChunk c).data = lbrace :: rest := by
  obtain ⟨kvs, hk⟩ := chunkToJson_obj c
  refine ⟨(stringifyMembers kvs).data ++ (String.singleton rbrace).data, ?_⟩
  rw [encodeStreamChunk, hk]
  show (String.singleton lbrace ++ stringifyMembers kvs ++ String.singleton rbrace).data = _
  simp [String.data_append]

theorem sseRecord_ne_doneSentinel (c : StreamChunk) :
    sseRecord (encodeStreamChunk c) ≠ doneSentinel := by
  intro h
  obtain ⟨rest, hr⟩ := encode_starts_lbrace c
  have hd := congrArg String.data h
  have h1 : (sseRecord (encodeStreamChunk c)).data =
      ['d', 'a', 't', 'a', ':', ' '] ++ ((encodeStreamChunk c).data ++ ['\n', '\n']) := by
    simp [sseRecord, String.data_append]
  have h2 : doneSentinel.data =
      ['d', 'a', 't', 'a', ':', ' ', '[', 'D', 'O', 'N', 'E', ']', '\n', '\n'] := rfl
  rw [h1, h2, hr] at hd
  simp only [List.cons_append, List.nil_append, List.cons.injEq] at hd
  exact absurd hd.2.2.2.2.2.2.1 (by decide)

/-- C7 (corrected; see `c7_counterexample`): both the TS bridge
(`toReadableStream`) and the PHP SSE server serialize each chunk as a record
`data: <payload>` terminated by two newlines, and a stream whose source
completes — including when its final chunk is a canonical `error` chunk — is
terminated by the sentinel record `data: [DONE]` plus two newlines, which
differs from every serialized chunk record; but when the source THROWS, both
emit one error record and close WITHOUT the sentinel. -/
theorem c7_sse_framing (chunks : List StreamChunk) (e : JsError)
    (payloads : List String) (emsg : String) :
    (toReadableStream chunks none =
      String.join (chunks.map (fun c => sseRecord (encodeStreamChunk c))) ++ doneSentinel) ∧
    (toReadableStream chunks (some e) =
      String.join (chunks.map (fun c => sseRecord (encodeStreamChunk c))) ++
        sseRecord (stringifyJson (tsCatchPayload e))) ∧
    (∀ c : StreamChunk, sseRecord (encodeStreamChunk c) ≠ doneSentinel) ∧
    (phpChatOutput payloads none = String.join (payloads.map phpFormatChunk) ++ phpFormatDone) ∧
    (phpChatOutput payloads (some emsg) =
      String.join (payloads.map phpFormatChunk) ++ phpFormatChunk emsg) :=
  ⟨rfl, rfl, sseRecord_ne_doneSentinel, rfl, rfl⟩

/-- C7 counterexample: a serialized stream that ends in an error — here the
source throws before any chunk, as a vendor stream may — is NOT terminated
by the `data: [DONE]` sentinel: the whole output is the single error record,
and the sentinel is not a suffix of it. -/
theorem c7_counterexample :
    toReadableStream [] (some ⟨false, "boom", none⟩) =
      "data: \x7b\"type\":\"error\",\"error\":\x7b\"message\":\"boom\"\x7d\x7d\n\n" ∧
    List.isSuffixOf doneSentinel.data
      (toReadableStream [] (some ⟨false, "boom", none⟩)).data = false := by
  exact ⟨by decide, by decide⟩

/-! ### Claim C8: merges touch only the arguments -/

theorem stepPartText_map (model : String) (ts : Nat) (st : GeminiState) (p : GeminiPart) :
    (stepPartText model ts st p).1.toolCallMap = st.toolCallMap := by
  unfold stepPartText
  cases truthyStr p.text with
  | none => rfl
  | some t => cases hb : p.thought <;> simp

/-- The tool-call map after a whole stream was processed. -/
def geminiFinalToolCallMap (model : String) (ts : Nat) (chunks : List GeminiChunk) :
    List (String × GeminiToolCallData) :=
  (runGemini model ts initGeminiState chunks).1.toolCallMap

/-- C8 (corrected; see `c8_counterexample`: the record's name is fixed by
the FIRST fragment of the call — empty when that fragment carries no name —
so a name arriving only on a later fragment is never adopted): once a
tool-call record exists, processing any further part changes only its
`args`; its `name` and `index` are preserved. -/
theorem c8_name_index_frame (model : String) (ts now : Nat) (st : GeminiState)
    (p : GeminiPart) (k : String) (d : GeminiToolCallData)
    (h : lookupKey k st.toolCallMap = some d) :
    (lookupKey k (stepPart model ts now st p).1.toolCallMap).map
      (fun r => (r.name, r.index)) = some (d.name, d.index) := by
  simp only [stepPart]
  have hmap := stepPartText_map model ts st p
  have h1 : lookupKey k (stepPartText model ts st p).1.toolCallMap = some d := by
    rw [hmap]
    exact h
  cases hfc : p.functionCall with
  | none => simp [stepPartCall, hfc, h1]
  | some fc =>
      cases hl : lookupKey
          (geminiToolCallId fc now (stepPartText model ts st p).1.nextToolIndex)
          (stepPartText model ts st p).1.toolCallMap with
      | none =>
          have hkk : geminiToolCallId fc now (stepPartText model ts st p).1.nextToolIndex
              ≠ k := by
            intro he
            rw [he, h1] at hl
            exact Option.noConfusion hl
          simp [stepPartCall, hfc, hl, lookupKey_setKey, hkk, h1]
      | some d0 =>
          by_cases hkk : geminiToolCallId fc now (stepPartText model ts st p).1.nextToolIndex
              = k
          · have hl2 := hl
            rw [hkk, h1] at hl2
            have hd0 : d0 = d := (Option.some.inj hl2).symm
            simp only [stepPartCall, hfc, hl]
            rw [lookupKey_setKey, if_pos hkk]
            simp [hd0]
          · simp only [stepPartCall, hfc, hl]
            rw [lookupKey_setKey, if_neg hkk, h1]
            rfl

theorem c8_counterexample :
    lookupKey "c1" (geminiFinalToolCallMap "m" 0
      [⟨some ⟨some [⟨none, false, some ⟨some "c1", none, some (Json.obj [])⟩⟩], none⟩,
         none, none, 0⟩,
       ⟨some ⟨some [⟨none, false, some ⟨some "c1", some "f", none⟩⟩], none⟩,
         none, none, 1⟩]) = some ⟨"", "\x7b\x7d", 0⟩ ∧
    ("" : String) ≠ "f" := by
  exact ⟨by decide, by decide⟩

theorem c8_name_index_frame_witness :
    (lookupKey "c1"
      (stepPart "m" 0 7 ⟨"", [("c1", ⟨"f", "\x7b\x7d", 0⟩)], 1, 5⟩
        ⟨none, false, some ⟨some "c1", some "g", none⟩⟩).1.toolCallMap).map
      (fun r => (r.name, r.index)) = some ("f", 0) := by
  exact c8_name_index_frame "m" 0 7 ⟨"", [("c1", ⟨"f", "\x7b\x7d", 0⟩)], 1, 5⟩
    ⟨none, false, some ⟨some "c1", some "g", none⟩⟩ "c1" ⟨"f", "\x7b\x7d", 0⟩ (by decide)

/-! ### Claim C5: synthesized tool-call keys -/

/-- The `(toolCall.id, index)` pairs of the emitted `tool_call` chunks. -/
def toolCallPairs (l : List StreamChunk) : List (String × Nat) :=
  l.filterMap (fun c => match c with
    | .toolCall _ _ _ call idx => some (call.id, idx)
    | _ => none)

theorem toolCallPairs_append (l1 l2 : List StreamChunk) :
    toolCallPairs (l1 ++ l2) = toolCallPairs l1 ++ toolCallPairs l2 := by
  simp [toolCallPairs, List.filterMap_append]

/-- The maximal run of non-underscore characters at the end of a string's
characters: for a synthesized key `name_time_counter` this is the decimal
rendering of the counter. -/
def afterLastSep (l : List Char) : List Char :=
  (l.reverse.takeWhile (fun c => !(c == '_'))).reverse

theorem takeWhile_append_stop {p : Char → Bool} (xs : List Char) (y : Char) (ys : List Char)
    (hxs : ∀ x ∈ xs, p x = true) (hy : p y = false) :
    (xs ++ y :: ys).takeWhile p = xs := by
  induction xs with
  | nil => simp [List.takeWhile_cons, hy]
  | cons a xs ih =>
      have ha := hxs a (by simp)
      simp [List.takeWhile_cons, ha, ih (fun x hx => hxs x (by simp [hx]))]

theorem afterLastSep_append (a d : List Char) (hd : ∀ c ∈ d, (c == '_') = false) :
    afterLastSep (a ++ '_' :: d) = d := by
  unfold afterLastSep
  rw [List.reverse_append, List.reverse_cons, List.append_assoc, List.singleton_append]
  rw [takeWhile_append_stop d.reverse '_' a.reverse
    (fun x hx => by simp [hd x (List.mem_reverse.1 hx)]) (by simp)]
  exact List.reverse_reverse d

theorem natDigits_ne_nil (n : Nat) : natDigits n ≠ [] := by
  by_cases h : n < 10
  · rw [natDigits_lt n h]
    simp
  · rw [natDigits_ge n h]
    simp

theorem digitChar_ne_sep : ∀ k : Nat, k < 10 → (Nat.digitChar k == '_') = false := by decide

theorem natDigits_no_sep (n : Nat) : ∀ c ∈ natDigits n, (c == '_') = false := by
  induction n using Nat.strong_induction_on with
  | _ n ih =>
      by_cases h : n < 10
      · rw [natDigits_lt n h]
        intro c hc
        rcases List.mem_singleton.1 hc with rfl
        exact digitChar_ne_sep n h
      · rw [natDigits_ge n h]
        intro c hc
        rcases List.mem_append.1 hc with hc | hc
        · exact ih (n / 10) (Nat.div_lt_self (by omega) (by omega)) c hc
        · rcases List.mem_singleton.1 hc with rfl
          exact digitChar_ne_sep (n % 10) (Nat.mod_lt n (by omega))

theorem digitChar_inj_lt : ∀ a < 10, ∀ b < 10,
    Nat.digitChar a = Nat.digitChar b → a = b := by decide

theorem natDigits_inj : ∀ m n : Nat, natDigits m = natDigits n → m = n := by
  intro m
  induction m using Nat.strong_induction_on with
  | _ m ih =>
      intro n h
      by_cases hm : m < 10 <;> by_cases hn : n < 10
      · rw [natDigits_lt m hm, natDigits_lt n hn] at h
        injection h with h1 _
        exact digitChar_inj_lt m hm n hn h1
      · rw [natDigits_lt m hm, natDigits_ge n hn] at h
        have hlen := congrArg List.length h
        cases he : natDigits (n / 10) with
        | nil => exact absurd he (natDigits_ne_nil (n / 10))
        | cons a l =>
            rw [he] at hlen
            simp at hlen
      · rw [natDigits_ge m hm, natDigits_lt n hn] at h
        have hlen := congrArg List.length h
        cases he : natDigits (m / 10) with
        | nil => exact absurd he (natDigits_ne_nil (m / 10))
        | cons a l =>
            rw [he] at hlen
            simp at hlen
      · rw [natDigits_ge m hm, natDigits_ge n hn] at h
        obtain ⟨h1, h2⟩ := List.append_inj' h rfl
        have hmod : m % 10 = n % 10 := by
          injection h2 with h2a _
          exact digitChar_inj_lt _ (Nat.mod_lt m (by omega)) _ (Nat.mod_lt n (by omega)) h2a
        have hdiv : m / 10 = n / 10 :=
          ih (m / 10) (Nat.div_lt_self (by omega) (by omega)) (n / 10) h1
        omega

theorem synthKey_tagged (fc : GeminiFunctionCall) (now idx : Nat) :
    afterLastSep (synthKey fc now idx).data = natDigits idx := by
  have h1 : (synthKey fc now idx).data =
      (keyName fc.name ++ "_" ++ natStr now).data ++ '_' :: natDigits idx := by
    simp [synthKey, String.data_append, natStr]
  rw [h1]
  exact afterLastSep_append _ _ (natDigits_no_sep idx)

/-- A part carries no (truthy) vendor-supplied call id. -/
def geminiPartNoId (p : GeminiPart) : Bool :=
  match p.functionCall with
  | some fc => (truthyStr fc.id).isNone
  | none => true

/-- No part of the chunk carries a vendor-supplied call id. -/
def geminiChunkNoIds (c : GeminiChunk) : Bool :=
  match c.candidate.bind (fun cand => cand.parts) with
  | some ps => ps.all geminiPartNoId
  | none => true

/-- No fragment of the whole stream carries a vendor-supplied call id. -/
def geminiNoVendorIds (cs : List GeminiChunk) : Bool := cs.all geminiChunkNoIds

/-- Every map entry's key ends (after the last underscore) in the decimal
rendering of the entry's index. -/
def mapTagged (m : List (String × GeminiToolCallData)) : Prop :=
  ∀ kd ∈ m, afterLastSep kd.1.data = natDigits kd.2.index

/-- Every emitted `(toolCall.id, index)` pair's key ends in the decimal
rendering of its index. -/
def pairsTagged (l : List StreamChunk) : Prop :=
  ∀ p ∈ toolCallPairs l, afterLastSep p.1.data = natDigits p.2

/-- A step preserves the key-tagging invariant and only emits tagged pairs. -/
def StepTagged (st st' : GeminiState) (out : List StreamChunk) : Prop :=
  mapTagged st.toolCallMap → mapTagged st'.toolCallMap ∧ pairsTagged out

theorem mem_setKey {α β : Type} [DecidableEq α] (m : List (α × β)) (k : α) (v : β) :
    ∀ kd ∈ setKey m k v, kd = (k, v) ∨ kd ∈ m := by
  induction m with
  | nil =>
      intro kd hkd
      rcases List.mem_singleton.1 hkd with rfl
      exact Or.inl rfl
  | cons e rest ih =>
      obtain ⟨k', v'⟩ := e
      by_cases hk : k' = k
      · intro kd hkd
        simp only [setKey, if_pos hk] at hkd
        rcases List.mem_cons.1 hkd with rfl | hkd
        · exact Or.inl (by rw [hk])
        · exact Or.inr (List.mem_cons_of_mem _ hkd)
      · intro kd hkd
        simp only [setKey, if_neg hk] at hkd
        rcases List.mem_cons.1 hkd with rfl | hkd
        · exact Or.inr (List.mem_cons_self _ _)
        · rcases ih kd hkd with h | h
          · exact Or.inl h
          · exact Or.inr (List.mem_cons_of_mem _ h)

theorem lookupKey_mem {α β : Type} [DecidableEq α] {k : α} {m : List (α × β)} {d : β}
    (h : lookupKey k m = some d) : (k, d) ∈ m := by
  induction m with
  | nil => exact absurd h (by simp [lookupKey])
  | cons e rest ih =>
      obtain ⟨k', v'⟩ := e
      by_cases hk : k' = k
      · simp only [lookupKey, if_pos hk] at h
        subst hk
        rw [← Option.some.inj h]
        exact List.mem_cons_self _ _
      · simp only [lookupKey, if_neg hk] at h
        exact List.mem_cons_of_mem _ (ih h)

theorem StepTagged_comp {st st1 st2 : GeminiState} {o1 o2 : List StreamChunk}
    (h1 : StepTagged st st1 o1) (h2 : StepTagged st1 st2 o2) :
    StepTagged st st2 (o1 ++ o2) := by
  intro hm
  obtain ⟨hm1, hp1⟩ := h1 hm
  obtain ⟨hm2, hp2⟩ := h2 hm1
  refine ⟨hm2, ?_⟩
  intro p hp
  rw [toolCallPairs_append] at hp
  rcases List.mem_append.1 hp with hp | hp
  · exact hp1 p hp
  · exact hp2 p hp

theorem StepTagged_no_effect {st st' : GeminiState} {out : List StreamChunk}
    (hm : st'.toolCallMap = st.toolCallMap) (ho : toolCallPairs out = []) :
    StepTagged st st' out := by
  intro h
  refine ⟨by rw [hm]; exact h, ?_⟩
  intro p hp
  rw [ho] at hp
  exact absurd hp (List.not_mem_nil p)

theorem geminiToolCallId_noId {fc : GeminiFunctionCall} (h : truthyStr fc.id = none)
    (now idx : Nat) : geminiToolCallId fc now idx = synthKey fc now idx := by
  simp [geminiToolCallId, h]

theorem stepPartText_tagged (model : String) (ts : Nat) (st : GeminiState) (p : GeminiPart) :
    StepTagged st (stepPartText model ts st p).1 (stepPartText model ts st p).2 := by
  unfold stepPartText
  cases truthyStr p.text with
  | none => exact StepTagged_no_effect rfl rfl
  | some t => cases hb : p.thought <;> exact StepTagged_no_effect rfl rfl

theorem stepPartCall_tagged (model : String) (ts now : Nat) (st : GeminiState)
    (p : GeminiPart) (hid : geminiPartNoId p = true) :
    StepTagged st (stepPartCall model ts now st p).1 (stepPartCall model ts now st p).2 := by
  unfold stepPartCall
  cases hfc : p.functionCall with
  | none => exact StepTagged_no_effect rfl rfl
  | some fc =>
      have hno : truthyStr fc.id = none := by
        have h2 := hid
        unfold geminiPartNoId at h2
        rw [hfc] at h2
        simpa [Option.isNone_iff_eq_none] using h2
      have hkey := geminiToolCallId_noId hno now st.nextToolIndex
      cases hl : lookupKey (geminiToolCallId fc now st.nextToolIndex) st.toolCallMap with
      | none =>
          simp only [hl]
          intro hm
          constructor
          · intro kd hkd
            rcases mem_setKey _ _ _ kd hkd with rfl | hkd
            · show afterLastSep (geminiToolCallId fc now st.nextToolIndex).data
                = natDigits st.nextToolIndex
              rw [hkey]
              exact synthKey_tagged fc now st.nextToolIndex
            · exact hm kd hkd
          · intro q hq
            have hq2 : q = (geminiToolCallId fc now st.nextToolIndex, st.nextToolIndex) := by
              simpa [toolCallPairs] using hq
            rw [hq2]
            show afterLastSep (geminiToolCallId fc now st.nextToolIndex).data
              = natDigits st.nextToolIndex
            rw [hkey]
            exact synthKey_tagged fc now st.nextToolIndex
      | some d0 =>
          simp only [hl]
          intro hm
          have hd0 : afterLastSep (geminiToolCallId fc now st.nextToolIndex).data
              = natDigits d0.index := hm _ (lookupKey_mem hl)
          constructor
          · intro kd hkd
            rcases mem_setKey _ _ _ kd hkd with rfl | hkd
            · exact hd0
            · exact hm kd hkd
          · intro q hq
            have hq2 : q = (geminiToolCallId fc now st.nextToolIndex, d0.index) := by
              simpa [toolCallPairs] using hq
            rw [hq2]
            exact hd0

theorem stepPart_tagged (model : String) (ts now : Nat) (st : GeminiState)
    (p : GeminiPart) (hid : geminiPartNoId p = true) :
    StepTagged st (stepPart model ts now st p).1 (stepPart model ts now st p).2 := by
  simp only [stepPart]
  exact StepTagged_comp (stepPartText_tagged model ts st p)
    (stepPartCall_tagged model ts now _ p hid)

theorem runParts_tagged (model : String) (ts now : Nat) (ps : List GeminiPart)
    (hid : ∀ p ∈ ps, geminiPartNoId p = true) :
    ∀ st : GeminiState,
      StepTagged st (runParts model ts now st ps).1 (runParts model ts now st ps).2 := by
  induction ps with
  | nil =>
      intro st
      simp only [runParts]
      exact StepTagged_no_effect rfl rfl
  | cons p ps ih =>
      intro st
      simp only [runParts]
      exact StepTagged_comp (stepPart_tagged model ts now st p (hid p (by simp)))
        (ih (fun q hq => hid q (by simp [hq])) _)

theorem stepUnexpectedPart_tagged (model : String) (ts now : Nat) (st : GeminiState)
    (p : GeminiPart) (hid : geminiPartNoId p = true) :
    StepTagged st (stepUnexpectedPart model ts now st p).1
      (stepUnexpectedPart model ts now st p).2 := by
  unfold stepUnexpectedPart
  cases hfc : p.functionCall with
  | none => exact StepTagged_no_effect rfl rfl
  | some fc =>
      have hno : truthyStr fc.id = none := by
        have h2 := hid
        unfold geminiPartNoId at h2
        rw [hfc] at h2
        simpa [Option.isNone_iff_eq_none] using h2
      have hkey := geminiToolCallId_noId hno now st.nextToolIndex
      intro hm
      constructor
      · intro kd hkd
        rcases mem_setKey _ _ _ kd hkd with rfl | hkd
        · show afterLastSep (geminiToolCallId fc now st.nextToolIndex).data
            = natDigits st.nextToolIndex
          rw [hkey]
          exact synthKey_tagged fc now st.nextToolIndex
        · exact hm kd hkd
      · intro q hq
        have hq2 : q = (geminiToolCallId fc now st.nextToolIndex,
            st.nextToolIndex + 1 - 1) := by
          simpa [toolCallPairs] using hq
        rw [hq2]
        show afterLastSep (geminiToolCallId fc now st.nextToolIndex).data
          = natDigits (st.nextToolIndex + 1 - 1)
        rw [hkey]
        exact synthKey_tagged fc now st.nextToolIndex

theorem runUnexpected_tagged (model : String) (ts now : Nat) (ps : List GeminiPart)
    (hid : ∀ p ∈ ps, geminiPartNoId p = true) :
    ∀ st : GeminiState,
      StepTagged st (runUnexpected model ts now st ps).1 (runUnexpected model ts now st ps).2 := by
  induction ps with
  | nil =>
      intro st
      simp only [runUnexpected]
      exact StepTagged_no_effect rfl rfl
  | cons p ps ih =>
      intro st
      simp only [runUnexpected]
      exact StepTagged_comp (stepUnexpectedPart_tagged model ts now st p (hid p (by simp)))
        (ih (fun q hq => hid q (by simp [hq])) _)

theorem stepChunkBody_tagged (model : String) (ts : Nat) (st : GeminiState)
    (c : GeminiChunk) (hc : geminiChunkNoIds c = true) :
    StepTagged st (stepChunkBody model ts st c).1 (stepChunkBody model ts st c).2 := by
  unfold stepChunkBody
  cases hp : c.candidate.bind (fun cand => cand.parts) with
  | some ps =>
      have hid : ∀ p ∈ ps, geminiPartNoId p = true := by
        have h2 := hc
        unfold geminiChunkNoIds at h2
        rw [hp] at h2
        simpa [List.all_eq_true] using h2
      exact runParts_tagged model ts c.now ps hid st
  | none =>
      cases truthyStr c.data with
      | some d => exact StepTagged_no_effect rfl rfl
      | none => exact StepTagged_no_effect rfl rfl

theorem finishUnexpected_tagged (model : String) (ts : Nat) (c : GeminiChunk)
    (fr : GeminiFinish) (st1 : GeminiState) (hc : geminiChunkNoIds c = true) :
    StepTagged st1 (finishUnexpected model ts c fr st1).1
      (finishUnexpected model ts c fr st1).2 := by
  unfold finishUnexpected
  by_cases hu : fr = GeminiFinish.unexpectedToolCall
  · rw [if_pos hu]
    cases hp : c.candidate.bind (fun cand => cand.parts) with
    | some ps =>
        have hid : ∀ p ∈ ps, geminiPartNoId p = true := by
          have h2 := hc
          unfold geminiChunkNoIds at h2
          rw [hp] at h2
          simpa [List.all_eq_true] using h2
        exact runUnexpected_tagged model ts c.now ps hid st1
    | none => exact StepTagged_no_effect rfl rfl
  · rw [if_neg hu]
    exact StepTagged_no_effect rfl rfl

theorem stepChunkFinish_tagged (model : String) (ts : Nat) (c : GeminiChunk)
    (fr : GeminiFinish) (st1 : GeminiState) (hc : geminiChunkNoIds c = true) :
    StepTagged st1 (stepChunkFinish model ts c fr st1).1
      (stepChunkFinish model ts c fr st1).2 := by
  have hmx : StepTagged (finishUnexpected model ts c fr st1).1
      (finishMaxTok model ts fr (finishUnexpected model ts c fr st1).1).1
      (finishMaxTok model ts fr (finishUnexpected model ts c fr st1).1).2 := by
    unfold finishMaxTok
    by_cases hm : fr = GeminiFinish.maxTokens
    · rw [if_pos hm]
      exact StepTagged_no_effect rfl rfl
    · rw [if_neg hm]
      exact StepTagged_no_effect rfl rfl
  simp only [stepChunkFinish]
  exact StepTagged_comp
    (StepTagged_comp (finishUnexpected_tagged model ts c fr st1 hc) hmx)
    (StepTagged_no_effect rfl rfl)

theorem stepChunk_tagged (model : String) (ts : Nat) (st : GeminiState) (c : GeminiChunk)
    (hc : geminiChunkNoIds c = true) :
    StepTagged st (stepChunk model ts st c).1 (stepChunk model ts st c).2 := by
  simp only [stepChunk]
  cases c.candidate.bind (fun cand => cand.finishReason) with
  | none => exact stepChunkBody_tagged model ts st c hc
  | some fr =>
      exact StepTagged_comp (stepChunkBody_tagged model ts st c hc)
        (stepChunkFinish_tagged model ts c fr _ hc)

theorem runGemini_tagged (model : String) (ts : Nat) (cs : List GeminiChunk)
    (hcs : ∀ c ∈ cs, geminiChunkNoIds c = true) :
    ∀ st : GeminiState,
      StepTagged st (runGemini model ts st cs).1 (runGemini model ts st cs).2 := by
  induction cs with
  | nil =>
      intro st
      simp only [runGemini]
      exact StepTagged_no_effect rfl rfl
  | cons c cs ih =>
      intro st
      simp only [runGemini]
      exact StepTagged_comp (stepChunk_tagged model ts st c (hcs c (by simp)))
        (ih (fun c2 hc2 => hcs c2 (by simp [hc2])) _)

theorem processGeminiChunks_tagged (model : String) (ts : Nat) (cs : List GeminiChunk)
    (h : geminiNoVendorIds cs = true) :
    pairsTagged (processGeminiChunks model ts cs) := by
  have hcs : ∀ c ∈ cs, geminiChunkNoIds c = true := by
    simpa [geminiNoVendorIds, List.all_eq_true] using h
  exact ((runGemini_tagged model ts cs hcs initGeminiState)
    (by intro kd hkd; exact absurd hkd (List.not_mem_nil kd))).2

/-- C5 (corrected; see `c5_counterexample` for the OpenAI half of the claim,
which is false): in the GEMINI adapter, a fragment without a vendor-supplied
call id gets the synthesized key
`` `${functionCall.name}_${Date.now()}_${nextToolIndex}` `` (the time is the
fragment's processing time, not the stream start), whose text after its last
underscore is the decimal rendering of the record's index; since indices of
distinct tool calls differ, any two tool-call chunks of an id-less stream
with different indices carry different keys. -/
theorem c5_synthesized_keys (model : String) (ts : Nat) (cs : List GeminiChunk)
    (h : geminiNoVendorIds cs = true) :
    ∀ p1 ∈ toolCallPairs (processGeminiChunks model ts cs),
      ∀ p2 ∈ toolCallPairs (processGeminiChunks model ts cs),
        p1.2 ≠ p2.2 → p1.1 ≠ p2.1 := by
  intro p1 h1 p2 h2 hne heq
  have t1 := processGeminiChunks_tagged model ts cs h p1 h1
  have t2 := processGeminiChunks_tagged model ts cs h p2 h2
  apply hne
  apply natDigits_inj
  rw [← t1, ← t2, heq]

/-- C5 counterexample: the OpenAI adapter synthesizes the key
`` `call_${Date.now()}` `` — combining neither the function name, nor the
stream start time, nor a counter — so two distinct id-less tool calls
processed in the same millisecond receive the SAME key (`call_100` for both
indices 0 and 1 here), refuting the claimed distinctness. -/
theorem c5_counterexample :
    toolCallPairs (openaiEmittedChunks "m" 0
      [⟨"cid", "m", some ⟨some ⟨none,
          some [⟨none, some 0, some "f", some "\x7b\x7d"⟩,
                ⟨none, some 1, some "g", some "\x7b\x7d"⟩], none⟩, none⟩, none, 100⟩]
      none) = [("call_100", 0), ("call_100", 1)] := by
  decide

theorem c5_synthesized_keys_witness :
    ("f_100_0" : String) ≠ "g_100_1" := by
  exact c5_synthesized_keys "m" 0
    [⟨some ⟨some [⟨none, false, some ⟨none, some "f", some (Json.obj [("a", Json.num 1)])⟩⟩,
        ⟨none, false, some ⟨none, some "g", some (Json.obj [("b", Json.num 2)])⟩⟩], none⟩,
      none, none, 100⟩] (by decide)
    ("f_100_0", 0) (by decide) ("g_100_1", 1) (by decide) (by decide)

end TanstackAI
